import Mathlib

/-!
Verification of the `task-utils` hierarchical task-state tracker vendored in this
repository (modules `tasks.js`, `task-defs.js`, `task-utils.js`).

Shallow embedding notes:
* A JS `Task` instance is a tree node carrying its own mutable bookkeeping data
  (`TaskData`), a reference to its immutable definition (`TaskDefT`), a list of owned
  sub-task instances and a list of slave tasks.  The mutually inductive `Task`/`Tasks`
  pair mirrors `this._subTasks`/`this._slaveTasks` arrays.
* Mutating methods are translated to functions `Task → Except JsErr Task`.  The
  module `tasks.js` runs in strict mode (`'use strict'` plus ES class bodies), so a
  property assignment on an object frozen by `Object.freeze(this)` (see
  `Task.freeze`) raises a `TypeError`; the embedding models each property write as
  throwing `JsErr.typeError` when the target node is frozen, placed at the first
  write each method performs.  A thrown error aborts the call, and in every
  configuration used by the theorems below (fully frozen trees or fully unfrozen
  trees) no write precedes a throw, so returning `Except.error` with no partial
  result is faithful to the in-place JS semantics.
* ISO date-time strings (`began`/`ended`) are totally ordered; they are modelled as
  `Option Int` timestamps, and `took` (milliseconds) as `Option Int`.
* JS object identity (used by `history.indexOf(task)` in the hierarchy walks) is
  modelled with an explicit numeric `id` on definitions and instances.
* `task-states.js` and `core.js` are not part of this repository's sources (only
  `tasks.js`, `task-defs.js`, `task-utils.js` and the README are); the state model
  (state classes, their boolean predicates and `TaskState.compareStates`) is
  therefore modelled from the spec, as flagged on each such definition.
-/

namespace TaskUtils

/-- Errors that can abort one of the modelled Task operations: `typeError` is the
strict-mode `TypeError` raised by a property write on an `Object.freeze`-frozen
instance; `missingError` is the error thrown by `fail`/`failAs` when no error
argument is given; `cyclicHierarchy` is the "not a valid Directed Acyclic Graph"
error of the hierarchy walks; `mismatchedPriorVersion` is the error thrown by
`updateFromPriorVersion` on a name mismatch. -/
inductive JsErr where
  | typeError
  | missingError
  | cyclicHierarchy
  | mismatchedPriorVersion
deriving DecidableEq

/-- Modelled from the spec: the closed set of task states of the missing
`task-states.js` module.  `Unstarted` and `Started` carry no data; the completed
family is `Completed`/`Succeeded`; `TimedOut` carries an optional error; the failed
family (`Failed` and the custom-named `FailedAs`, i.e. `FailedState`) carries a
required error; the rejected family (`Rejected`/`Discarded`/`Abandoned`) carries a
reason and an optional error.  Errors and results are modelled as `String`s. -/
inductive TaskState where
  | Unstarted
  | Started
  | Completed
  | Succeeded
  | TimedOut (error : Option String)
  | Failed (error : String)
  | FailedAs (stateName : String) (error : String)
  | Rejected (reason : String) (error : Option String)
  | Discarded (reason : String) (error : Option String)
  | Abandoned (reason : String) (error : Option String)
deriving DecidableEq

/-- Modelled from the spec: true exactly on the completed family of states. -/
def TaskState.completedB : TaskState → Bool
  | .Completed | .Succeeded => true
  | _ => false

/-- Modelled from the spec: true exactly on the timed-out family of states. -/
def TaskState.timedOutB : TaskState → Bool
  | .TimedOut _ => true
  | _ => false

/-- Modelled from the spec: true exactly on the failed family of states. -/
def TaskState.failedB : TaskState → Bool
  | .Failed _ | .FailedAs _ _ => true
  | _ => false

/-- Modelled from the spec: true exactly on the rejected family of states
(`Rejected`, `Discarded`, `Abandoned`). -/
def TaskState.rejectedB : TaskState → Bool
  | .Rejected _ _ | .Discarded _ _ | .Abandoned _ _ => true
  | _ => false

/-- Modelled from the spec: true exactly on the initial `Unstarted` state. -/
def TaskState.unstartedB : TaskState → Bool
  | .Unstarted => true
  | _ => false

/-- Modelled from the spec: true exactly on the `Started` state. -/
def TaskState.startedB : TaskState → Bool
  | .Started => true
  | _ => false

/-- Modelled from the spec: a state is incomplete unless it is in the completed or
rejected family. -/
def TaskState.incompleteB (s : TaskState) : Bool :=
  !s.completedB && !s.rejectedB

/-- Modelled from the spec: a state is finalised when it is in the completed or
rejected family (failed and timed-out states are retryable, not finalised). -/
def TaskState.finalisedB (s : TaskState) : Bool :=
  s.completedB || s.rejectedB

/-- Modelled from the spec: the progress rank backing `TaskState.compareStates` -
`Unstarted < Started < Failed/TimedOut < Completed < Rejected-family`, with ties
(Failed vs TimedOut) resolved in favour of the earlier element by sort stability. -/
def TaskState.rank : TaskState → Nat
  | .Unstarted => 0
  | .Started => 1
  | .TimedOut _ => 2
  | .Failed _ => 2
  | .FailedAs _ _ => 2
  | .Completed => 3
  | .Succeeded => 3
  | .Rejected _ _ => 4
  | .Discarded _ _ => 4
  | .Abandoned _ _ => 4

mutual
/-- A task definition (`task-defs.js`): read-only `name`, `managed` flag and the
ordered list of sub-task definitions.  `defId` models JS object identity for the
`history.indexOf` checks of the hierarchy walks. -/
inductive TaskDefT where
  | mk (defId : Nat) (name : String) (managed : Bool) (subDefs : TaskDefs)
/-- A list of task definitions (the `subTaskDefs` array). -/
inductive TaskDefs where
  | nil
  | cons (head : TaskDefT) (tail : TaskDefs)
end

/-- The identity of a task definition. -/
def TaskDefT.defId : TaskDefT → Nat
  | .mk i _ _ _ => i

/-- The read-only name of a task definition. -/
def TaskDefT.name : TaskDefT → String
  | .mk _ n _ _ => n

/-- The read-only managed (non-executable) flag of a task definition. -/
def TaskDefT.managed : TaskDefT → Bool
  | .mk _ _ m _ => m

/-- The sub-task definitions of a task definition. -/
def TaskDefT.subDefs : TaskDefT → TaskDefs
  | .mk _ _ _ s => s

/-- The per-instance mutable bookkeeping fields of a `Task` (`tasks.js`
constructor, lines 171-189): `_state`, `_attempts`, `_initialAttempts`,
`_totalAttempts`, `_began`, `_took`, `_ended`, `_result`, `_error`, `_frozen`.
`taskId` models JS object identity for `Task.ensureAllTasksDistinct`. -/
structure TaskData where
  taskId : Nat
  state : TaskState
  attempts : Int
  initialAttempts : Option Int
  totalAttempts : Int
  began : Option Int
  ended : Option Int
  took : Option Int
  result : Option String
  error : Option String
  frozen : Bool
deriving DecidableEq

mutual
/-- A task instance (`tasks.js`): its definition (non-owning, read-only
reference), its mutable data, its owned sub-task instances (`_subTasks`) and its
slave tasks (`_slaveTasks`).  The instance's read-only `name` and `managed`
properties are copies of the definition's (constructor lines 114-116), so they are
read through `defn` here. -/
inductive Task where
  | mk (defn : TaskDefT) (data : TaskData) (subTasks : Tasks) (slaveTasks : Tasks)
/-- A list of task instances (a `_subTasks` or `_slaveTasks` array). -/
inductive Tasks where
  | nil
  | cons (head : Task) (tail : Tasks)
end

/-- The definition this task was created from. -/
def Task.defn : Task → TaskDefT
  | .mk d _ _ _ => d

/-- The mutable data of this task. -/
def Task.data : Task → TaskData
  | .mk _ dat _ _ => dat

/-- The sub-tasks of this task. -/
def Task.subTasks : Task → Tasks
  | .mk _ _ s _ => s

/-- The slave tasks of this task. -/
def Task.slaveTasks : Task → Tasks
  | .mk _ _ _ sl => sl

/-- The read-only name of this task (a copy of its definition's name). -/
def Task.name (t : Task) : String := t.defn.name

/-- The state of this task. -/
def Task.state (t : Task) : TaskState := t.data.state

/-- The current number of attempts at this task. -/
def Task.attempts (t : Task) : Int := t.data.attempts

/-- The total (monotonic) number of attempts at this task. -/
def Task.totalAttempts (t : Task) : Int := t.data.totalAttempts

/-- Returns true if this task has been frozen (`isFrozen`, tasks.js line 1296). -/
def Task.isFrozen (t : Task) : Bool := t.data.frozen

/-- Returns true if this task is a master task with slave tasks
(`isMasterTask`, tasks.js line 1212). -/
def Task.isMasterTask (t : Task) : Bool :=
  match t.slaveTasks with
  | .nil => false
  | .cons _ _ => true

/-- Calculates the ended time from the began time and took ms
(`calculateEnded`, tasks.js lines 1458-1466): defined only when both are. -/
def calculateEnded (began : Option Int) (took : Option Int) : Option Int :=
  match began, took with
  | some b, some tk => some (b + tk)
  | _, _ => none

/-- Calculates the time taken in ms from the began and ended times
(`calculateTook`, tasks.js lines 1477-1485): defined only when both are. -/
def calculateTook (began : Option Int) (ended : Option Int) : Option Int :=
  match began, ended with
  | some b, some e => some (e - b)
  | _, _ => none

mutual
/-- Creates a task instance from a definition (`Task` constructor, tasks.js lines
59-195, with the validation and factory plumbing elided): name/managed copied from
the definition, state `Unstarted`, attempts and total attempts 0, no timing,
result, error or slaves, not frozen, and one sub-task instance created recursively
per sub-task definition.  Instance ids are not significant here and are set to 0. -/
def mkTaskFromDef : TaskDefT → Task
  | .mk i n m subDefs =>
      .mk (.mk i n m subDefs)
        { taskId := 0, state := .Unstarted, attempts := 0, initialAttempts := none,
          totalAttempts := 0, began := none, ended := none, took := none,
          result := none, error := none, frozen := false }
        (mkTasksFromDefs subDefs) .nil
/-- Creates one task instance per definition in the list. -/
def mkTasksFromDefs : TaskDefs → Tasks
  | .nil => .nil
  | .cons d ds => .cons (mkTaskFromDef d) (mkTasksFromDefs ds)
end

mutual
/-- Returns true if this task and all of its sub-tasks recursively are finalised
(`isFullyFinalised`, tasks.js lines 604-606). -/
def Task.isFullyFinalised : Task → Bool
  | .mk _ dat subs _ => dat.state.finalisedB && Tasks.allFullyFinalised subs
/-- Returns true if every task in the list is fully finalised
(the `every` traversal of `isFullyFinalised`). -/
def Tasks.allFullyFinalised : Tasks → Bool
  | .nil => true
  | .cons x xs => Task.isFullyFinalised x && Tasks.allFullyFinalised xs
end

mutual
/-- Freezes this task, its sub-tasks and (when it is a master) its slave tasks to
prevent any further changes (`freeze`, tasks.js lines 1275-1290): sets `_frozen`
and applies `Object.freeze(this)`; an already-frozen task is left as is.  The
`isMasterTask()` guard before freezing slaves is the non-emptiness check, which the
list traversal subsumes. -/
def Task.freeze : Task → Task
  | .mk d dat subs slaves =>
      if dat.frozen then .mk d dat subs slaves
      else .mk d { dat with frozen := true } (Tasks.freezeAll subs) (Tasks.freezeAll slaves)
/-- Freezes every task in the list. -/
def Tasks.freezeAll : Tasks → Tasks
  | .nil => .nil
  | .cons x xs => .cons (Task.freeze x) (Tasks.freezeAll xs)
end

mutual
/-- True when this task and every node below it (sub-tasks and slave tasks) is
frozen - the state `freeze` leaves a tree in. -/
def fullyFrozenB : Task → Bool
  | .mk _ dat subs slaves =>
      dat.frozen && fullyFrozenListB subs && fullyFrozenListB slaves
/-- True when every task in the list is fully frozen. -/
def fullyFrozenListB : Tasks → Bool
  | .nil => true
  | .cons x xs => fullyFrozenB x && fullyFrozenListB xs
end

mutual
/-- True when no node of this task tree (sub-tasks and slave tasks included) is
frozen, so no modelled property write can raise a `TypeError`. -/
def unfrozenTreeB : Task → Bool
  | .mk _ dat subs slaves =>
      !dat.frozen && unfrozenTreeListB subs && unfrozenTreeListB slaves
/-- True when every task in the list is an unfrozen tree. -/
def unfrozenTreeListB : Tasks → Bool
  | .nil => true
  | .cons x xs => unfrozenTreeB x && unfrozenTreeListB xs
end

/-- Applies the began-at time to this task's own data (the call
`this.beganAt(began, false, true)` made by `start`; `beganAt`, tasks.js lines
271-296, with recursion and slave rippling disabled by its arguments): skipped
silently when frozen; when incomplete, sets `_began`, clears an `_ended` that now
precedes it, and recomputes `_took`. -/
def beganAtData (time : Int) (dat : TaskData) : TaskData :=
  if dat.frozen then dat
  else if dat.state.incompleteB then
    let ended' :=
      match dat.ended with
      | some e => if e < time then none else some e
      | none => none
    { dat with began := some time, ended := ended', took := calculateTook (some time) ended' }
  else dat

mutual
/-- Starts this task ONLY if it is still unstarted (`start`, tasks.js lines
673-694): state becomes `Started`, the pre-start attempts are cached in
`_initialAttempts`, attempts and total attempts are incremented and the began-at
time is recorded; then the start is applied to sub-tasks when `recursively` and is
always rippled to slave tasks (the `isMasterTask()` guard is the non-emptiness
check, subsumed by the list traversal). -/
def Task.start (time : Int) (recursively : Bool) : Task → Except JsErr Task
  | .mk d dat subs slaves => do
    let dat' ←
      if dat.state.unstartedB then
        if dat.frozen then Except.error JsErr.typeError
        else
          Except.ok (beganAtData time
            { dat with state := .Started, initialAttempts := some dat.attempts,
                       attempts := dat.attempts + 1, totalAttempts := dat.totalAttempts + 1 })
      else Except.ok dat
    let subs' ← if recursively then Tasks.startList time recursively subs else Except.ok subs
    let slaves' ← Tasks.startList time recursively slaves
    Except.ok (.mk d dat' subs' slaves')
/-- Starts every task in the list. -/
def Tasks.startList (time : Int) (recursively : Bool) : Tasks → Except JsErr Tasks
  | .nil => Except.ok .nil
  | .cons x xs => do
    let x' ← Task.start time recursively x
    let xs' ← Tasks.startList time recursively xs
    Except.ok (.cons x' xs')
end

mutual
/-- Reverses the current number of attempts back to the cached initial number
(`revertAttempts`, tasks.js lines 701-715), recursing into sub-tasks when
requested and always rippling to slave tasks. -/
def Task.revertAttempts (recursively : Bool) : Task → Except JsErr Task
  | .mk d dat subs slaves => do
    let dat' ←
      match dat.initialAttempts with
      | some ia =>
          if dat.frozen then Except.error JsErr.typeError
          else Except.ok { dat with attempts := ia }
      | none => Except.ok dat
    let subs' ← if recursively then Tasks.revertAttemptsList recursively subs else Except.ok subs
    let slaves' ← Tasks.revertAttemptsList recursively slaves
    Except.ok (.mk d dat' subs' slaves')
/-- Reverts attempts on every task in the list. -/
def Tasks.revertAttemptsList (recursively : Bool) : Tasks → Except JsErr Tasks
  | .nil => Except.ok .nil
  | .cons x xs => do
    let x' ← Task.revertAttempts recursively x
    let xs' ← Tasks.revertAttemptsList recursively xs
    Except.ok (.cons x' xs')
end

mutual
/-- Completes this task with a `Completed` state and the given optional result,
ONLY if it is still incomplete and either not timed out or `overrideTimedOut`
(`complete`, tasks.js lines 778-793); the result is stored and the error cleared;
then sub-tasks are completed when `recursively` and the change always ripples to
slave tasks. -/
def Task.complete (result : Option String) (overrideTimedOut : Bool) (recursively : Bool) :
    Task → Except JsErr Task
  | .mk d dat subs slaves => do
    let dat' ←
      if dat.state.incompleteB && (overrideTimedOut || !dat.state.timedOutB) then
        if dat.frozen then Except.error JsErr.typeError
        else Except.ok { dat with state := .Completed, result := result, error := none }
      else Except.ok dat
    let subs' ←
      if recursively then Tasks.completeList result overrideTimedOut recursively subs
      else Except.ok subs
    let slaves' ← Tasks.completeList result overrideTimedOut recursively slaves
    Except.ok (.mk d dat' subs' slaves')
/-- Completes every task in the list. -/
def Tasks.completeList (result : Option String) (overrideTimedOut : Bool) (recursively : Bool) :
    Tasks → Except JsErr Tasks
  | .nil => Except.ok .nil
  | .cons x xs => do
    let x' ← Task.complete result overrideTimedOut recursively x
    let xs' ← Tasks.completeList result overrideTimedOut recursively xs
    Except.ok (.cons x' xs')
end

mutual
/-- Completes this task with a `Succeeded` state (`succeed`, tasks.js lines
804-819); identical to `complete` apart from the state stored. -/
def Task.succeed (result : Option String) (overrideTimedOut : Bool) (recursively : Bool) :
    Task → Except JsErr Task
  | .mk d dat subs slaves => do
    let dat' ←
      if dat.state.incompleteB && (overrideTimedOut || !dat.state.timedOutB) then
        if dat.frozen then Except.error JsErr.typeError
        else Except.ok { dat with state := .Succeeded, result := result, error := none }
      else Except.ok dat
    let subs' ←
      if recursively then Tasks.succeedList result overrideTimedOut recursively subs
      else Except.ok subs
    let slaves' ← Tasks.succeedList result overrideTimedOut recursively slaves
    Except.ok (.mk d dat' subs' slaves')
/-- Succeeds every task in the list. -/
def Tasks.succeedList (result : Option String) (overrideTimedOut : Bool) (recursively : Bool) :
    Tasks → Except JsErr Tasks
  | .nil => Except.ok .nil
  | .cons x xs => do
    let x' ← Task.succeed result overrideTimedOut recursively x
    let xs' ← Tasks.succeedList result overrideTimedOut recursively xs
    Except.ok (.cons x' xs')
end

/-- Reverts this task's own attempts to the cached initial number (the own-data
half of `revertAttempts`, tasks.js lines 702-704): a write only happens when
`_initialAttempts` is defined, in which case it raises on a frozen task. -/
def revertDataSelf (dat : TaskData) : Except JsErr TaskData :=
  match dat.initialAttempts with
  | some ia =>
      if dat.frozen then Except.error JsErr.typeError
      else Except.ok { dat with attempts := ia }
  | none => Except.ok dat

/-- The state guard of `timeout` (tasks.js line 864): not already timed out,
rejected or failed, not completed unless overridden, not unstarted unless
overridden. -/
def timeoutGuard (overrideCompleted overrideUnstarted : Bool) (s : TaskState) : Bool :=
  (overrideCompleted || !s.completedB) && (overrideUnstarted || !s.unstartedB)
    && !s.timedOutB && !s.rejectedB && !s.failedB

mutual
/-- Times out this task with a `TimedOut` state and the optional error, ONLY if it
is not already timed out, rejected or failed, and not completed (unless
`overrideCompleted`) and not unstarted (unless `overrideUnstarted`); when
`reverseAttempt` and the task is not unstarted, the start's attempt increment is
first reversed via `this.revertAttempts()` (`timeout`, tasks.js lines 859-881);
then sub-tasks are timed out when `recursively` and the change always ripples to
slave tasks.  The `revertAttempts()` call (whose recursion flag is unset) reverts
this task's own attempts and ripples the revert down the slave chain before the
timeouts; here that slave-side revert is fused into the slave traversal
(`timeoutRevvedList`, revert-then-timeout per slave), which yields the same
`Except` result as the source's two-phase order: distinct slave trees are
independent values, the revert is idempotent, and every abort in these paths is
the same `typeError`. -/
def Task.timeout (error : Option String)
    (overrideCompleted overrideUnstarted reverseAttempt : Bool) (recursively : Bool) :
    Task → Except JsErr Task
  | .mk d dat subs slaves =>
    if timeoutGuard overrideCompleted overrideUnstarted dat.state then do
      let doRevert := !dat.state.unstartedB && reverseAttempt
      let dat1 ← if doRevert then revertDataSelf dat else Except.ok dat
      let dat2 ←
        if dat1.frozen then Except.error JsErr.typeError
        else Except.ok { dat1 with state := .TimedOut error, result := none, error := error }
      let subs' ←
        if recursively then
          Tasks.timeoutList error overrideCompleted overrideUnstarted reverseAttempt recursively subs
        else Except.ok subs
      let slaves' ←
        if doRevert then
          Tasks.timeoutRevvedList error overrideCompleted overrideUnstarted reverseAttempt recursively slaves
        else
          Tasks.timeoutList error overrideCompleted overrideUnstarted reverseAttempt recursively slaves
      Except.ok (Task.mk d dat2 subs' slaves')
    else do
      let subs' ←
        if recursively then
          Tasks.timeoutList error overrideCompleted overrideUnstarted reverseAttempt recursively subs
        else Except.ok subs
      let slaves' ←
        Tasks.timeoutList error overrideCompleted overrideUnstarted reverseAttempt recursively slaves
      Except.ok (Task.mk d dat subs' slaves')
/-- Times out a task that a master's `revertAttempts()` ripple has just reached:
first the own-attempts revert of that ripple (which continues transitively down
this task's own slave chain), then the ordinary `timeout` steps of the master's
slave ripple; this task's own re-revert inside its `timeout` is the idempotent
second application the source also performs. -/
def Task.timeoutRevved (error : Option String)
    (overrideCompleted overrideUnstarted reverseAttempt : Bool) (recursively : Bool) :
    Task → Except JsErr Task
  | .mk d dat subs slaves => do
    let dat0 ← revertDataSelf dat
    if timeoutGuard overrideCompleted overrideUnstarted dat0.state then do
      let dat1 ←
        if !dat0.state.unstartedB && reverseAttempt then revertDataSelf dat0
        else Except.ok dat0
      let dat2 ←
        if dat1.frozen then Except.error JsErr.typeError
        else Except.ok { dat1 with state := .TimedOut error, result := none, error := error }
      let subs' ←
        if recursively then
          Tasks.timeoutList error overrideCompleted overrideUnstarted reverseAttempt recursively subs
        else Except.ok subs
      let slaves' ←
        Tasks.timeoutRevvedList error overrideCompleted overrideUnstarted reverseAttempt recursively slaves
      Except.ok (Task.mk d dat2 subs' slaves')
    else do
      let subs' ←
        if recursively then
          Tasks.timeoutList error overrideCompleted overrideUnstarted reverseAttempt recursively subs
        else Except.ok subs
      let slaves' ←
        Tasks.timeoutRevvedList error overrideCompleted overrideUnstarted reverseAttempt recursively slaves
      Except.ok (Task.mk d dat0 subs' slaves')
/-- Times out every task in the list. -/
def Tasks.timeoutList (error : Option String)
    (overrideCompleted overrideUnstarted reverseAttempt : Bool) (recursively : Bool) :
    Tasks → Except JsErr Tasks
  | .nil => Except.ok .nil
  | .cons x xs => do
    let x' ← Task.timeout error overrideCompleted overrideUnstarted reverseAttempt recursively x
    let xs' ← Tasks.timeoutList error overrideCompleted overrideUnstarted reverseAttempt recursively xs
    Except.ok (.cons x' xs')
/-- Reverts-then-times-out every task in the list. -/
def Tasks.timeoutRevvedList (error : Option String)
    (overrideCompleted overrideUnstarted reverseAttempt : Bool) (recursively : Bool) :
    Tasks → Except JsErr Tasks
  | .nil => Except.ok .nil
  | .cons x xs => do
    let x' ← Task.timeoutRevved error overrideCompleted overrideUnstarted reverseAttempt recursively x
    let xs' ← Tasks.timeoutRevvedList error overrideCompleted overrideUnstarted reverseAttempt recursively xs
    Except.ok (.cons x' xs')
end

mutual
/-- Fails this task with a `Failed` state carrying the given error (`fail`,
tasks.js lines 929-945): throws immediately, before any other step, when the
error argument is absent; otherwise transitions ONLY if not already timed out,
rejected or failed (a completed state may be overridden); then sub-tasks are
failed when `recursively` and the change always ripples to slave tasks. -/
def Task.fail (error : Option String) (recursively : Bool) : Task → Except JsErr Task
  | .mk d dat subs slaves =>
    match error with
    | none => Except.error JsErr.missingError
    | some e => do
      let dat' ←
        if !dat.state.timedOutB && !dat.state.rejectedB && !dat.state.failedB then
          if dat.frozen then Except.error JsErr.typeError
          else Except.ok { dat with state := .Failed e, result := none, error := some e }
        else Except.ok dat
      let subs' ← if recursively then Tasks.failList error recursively subs else Except.ok subs
      let slaves' ← Tasks.failList error recursively slaves
      Except.ok (.mk d dat' subs' slaves')
/-- Fails every task in the list. -/
def Tasks.failList (error : Option String) (recursively : Bool) : Tasks → Except JsErr Tasks
  | .nil => Except.ok .nil
  | .cons x xs => do
    let x' ← Task.fail error recursively x
    let xs' ← Tasks.failList error recursively xs
    Except.ok (.cons x' xs')
end

mutual
/-- Fails this task with a failed state of the given name carrying the given error
(`failAs`, tasks.js lines 957-973): throws immediately when the error argument is
absent; the state is the standard `Failed` when the given name is "Failed" and a
custom `FailedState` otherwise; same guard, recursion and slave rippling as
`fail`. -/
def Task.failAs (stateName : String) (error : Option String) (recursively : Bool) :
    Task → Except JsErr Task
  | .mk d dat subs slaves =>
    match error with
    | none => Except.error JsErr.missingError
    | some e => do
      let dat' ←
        if !dat.state.timedOutB && !dat.state.rejectedB && !dat.state.failedB then
          if dat.frozen then Except.error JsErr.typeError
          else
            Except.ok { dat with
              state := if stateName = "Failed" then .Failed e else .FailedAs stateName e,
              result := none, error := some e }
        else Except.ok dat
      let subs' ←
        if recursively then Tasks.failAsList stateName error recursively subs else Except.ok subs
      let slaves' ← Tasks.failAsList stateName error recursively slaves
      Except.ok (.mk d dat' subs' slaves')
/-- Fails-as every task in the list. -/
def Tasks.failAsList (stateName : String) (error : Option String) (recursively : Bool) :
    Tasks → Except JsErr Tasks
  | .nil => Except.ok .nil
  | .cons x xs => do
    let x' ← Task.failAs stateName error recursively x
    let xs' ← Tasks.failAsList stateName error recursively xs
    Except.ok (.cons x' xs')
end

mutual
/-- Rejects this task with a `Rejected` state (`reject`, tasks.js lines 984-1000):
when `recursively`, first attempts to reject every sub-task, accumulating the
count of nodes actually rejected; the change always ripples to slave tasks (whose
returned counts `forEach` discards); finally this task itself transitions ONLY if
it is incomplete and every one of its (now updated) sub-tasks is fully finalised,
in which case the returned count includes it. -/
def Task.reject (reason : String) (error : Option String) (recursively : Bool) :
    Task → Except JsErr (Task × Nat)
  | .mk d dat subs slaves => do
    let sc ←
      if recursively then Tasks.rejectList reason error recursively subs
      else Except.ok (subs, 0)
    let sl ← Tasks.rejectList reason error recursively slaves
    if dat.state.incompleteB && Tasks.allFullyFinalised sc.1 then
      if dat.frozen then Except.error JsErr.typeError
      else
        Except.ok (.mk d
          { dat with state := .Rejected reason error, result := none, error := error }
          sc.1 sl.1, sc.2 + 1)
    else Except.ok (.mk d dat sc.1 sl.1, sc.2)
/-- Rejects every task in the list, summing the counts left to right. -/
def Tasks.rejectList (reason : String) (error : Option String) (recursively : Bool) :
    Tasks → Except JsErr (Tasks × Nat)
  | .nil => Except.ok (.nil, 0)
  | .cons x xs => do
    let xc ← Task.reject reason error recursively x
    let xsc ← Tasks.rejectList reason error recursively xs
    Except.ok (.cons xc.1 xsc.1, xc.2 + xsc.2)
end

mutual
/-- Rejects this task with a `Discarded` state (`discard`, tasks.js lines
1011-1027); identical to `reject` apart from the state stored. -/
def Task.discard (reason : String) (error : Option String) (recursively : Bool) :
    Task → Except JsErr (Task × Nat)
  | .mk d dat subs slaves => do
    let sc ←
      if recursively then Tasks.discardList reason error recursively subs
      else Except.ok (subs, 0)
    let sl ← Tasks.discardList reason error recursively slaves
    if dat.state.incompleteB && Tasks.allFullyFinalised sc.1 then
      if dat.frozen then Except.error JsErr.typeError
      else
        Except.ok (.mk d
          { dat with state := .Discarded reason error, result := none, error := error }
          sc.1 sl.1, sc.2 + 1)
    else Except.ok (.mk d dat sc.1 sl.1, sc.2)
/-- Discards every task in the list, summing the counts left to right. -/
def Tasks.discardList (reason : String) (error : Option String) (recursively : Bool) :
    Tasks → Except JsErr (Tasks × Nat)
  | .nil => Except.ok (.nil, 0)
  | .cons x xs => do
    let xc ← Task.discard reason error recursively x
    let xsc ← Tasks.discardList reason error recursively xs
    Except.ok (.cons xc.1 xsc.1, xc.2 + xsc.2)
end

mutual
/-- Rejects this task with an `Abandoned` state (`abandon`, tasks.js lines
1038-1054); identical to `reject` apart from the state stored. -/
def Task.abandon (reason : String) (error : Option String) (recursively : Bool) :
    Task → Except JsErr (Task × Nat)
  | .mk d dat subs slaves => do
    let sc ←
      if recursively then Tasks.abandonList reason error recursively subs
      else Except.ok (subs, 0)
    let sl ← Tasks.abandonList reason error recursively slaves
    if dat.state.incompleteB && Tasks.allFullyFinalised sc.1 then
      if dat.frozen then Except.error JsErr.typeError
      else
        Except.ok (.mk d
          { dat with state := .Abandoned reason error, result := none, error := error }
          sc.1 sl.1, sc.2 + 1)
    else Except.ok (.mk d dat sc.1 sl.1, sc.2)
/-- Abandons every task in the list, summing the counts left to right. -/
def Tasks.abandonList (reason : String) (error : Option String) (recursively : Bool) :
    Tasks → Except JsErr (Tasks × Nat)
  | .nil => Except.ok (.nil, 0)
  | .cons x xs => do
    let xc ← Task.abandon reason error recursively x
    let xsc ← Tasks.abandonList reason error recursively xs
    Except.ok (.cons xc.1 xsc.1, xc.2 + xsc.2)
end

/-- Finds the first task with the given name in the list (the `_subTasksByName`
map look-up; sibling names are unique by construction-time validation). -/
def Tasks.findByName (name : String) : Tasks → Option Task
  | .nil => none
  | .cons x xs => if Task.name x = name then some x else Tasks.findByName name xs

/-- Returns the sub-task with the given name if it exists (`getSubTask`,
tasks.js lines 450-452). -/
def Task.getSubTask (t : Task) (name : String) : Option Task :=
  Tasks.findByName name t.subTasks

/-- Collects, across the given slave tasks, each one's sub-task with the given
name, skipping slaves without one (the expression
`slaves.map(t => t.getSubTask(name)).filter(s => !!s)` of `setSlaveTasks`). -/
def Tasks.collectSubSlaves (name : String) : Tasks → Tasks
  | .nil => .nil
  | .cons s rest =>
      match Task.getSubTask s name with
      | some st => .cons st (Tasks.collectSubSlaves name rest)
      | none => Tasks.collectSubSlaves name rest

/-- Accumulator of the slave-reduction loop of `setSlaveTasks` (tasks.js lines
1234-1251). -/
structure SlaveAgg where
  attempts : Int
  total : Int
  maxBegan : Option Int
  andEnded : Option Int

/-- The slave-reduction loop of `setSlaveTasks` (tasks.js lines 1237-1251): on the
first slave the master's attempts and total attempts are replaced, afterwards the
minimum is kept; the began/ended pair tracks the slave with the strictly most
recent began time, its ended falling back to `calculateEnded` of its began and
took. -/
def slaveReduce : Tasks → Bool → SlaveAgg → SlaveAgg
  | .nil, _, agg => agg
  | .cons s rest, isFirst, agg =>
      let a' := if isFirst then Task.attempts s else min agg.attempts (Task.attempts s)
      let tot' := if isFirst then Task.totalAttempts s else min agg.total (Task.totalAttempts s)
      let mbae :=
        match (Task.data s).began with
        | some b =>
            if (match agg.maxBegan with | none => true | some m => m < b) then
              (some b,
                match (Task.data s).ended with
                | some e => some e
                | none => calculateEnded (some b) (Task.data s).took)
            else (agg.maxBegan, agg.andEnded)
        | none => (agg.maxBegan, agg.andEnded)
      slaveReduce rest false
        { attempts := a', total := tot', maxBegan := mbae.1, andEnded := mbae.2 }

/-- Folds the remaining states keeping the first state of strictly least rank
(stable-sort semantics of `states.sort(TaskState.compareStates)[0]`). -/
def leastAdvancedFrom (acc : TaskState) : Tasks → TaskState
  | .nil => acc
  | .cons s rest =>
      leastAdvancedFrom (if (Task.state s).rank < acc.rank then Task.state s else acc) rest

/-- The least advanced state among the slave tasks' states, i.e. the first
element of `slaves.map(s => s._state).sort(TaskState.compareStates)`, `none` when
there are no slaves. -/
def leastAdvanced : Tasks → Option TaskState
  | .nil => none
  | .cons s rest => some (leastAdvancedFrom (Task.state s) rest)

mutual
/-- Sets this master task's slave tasks (`setSlaveTasks`, tasks.js lines
1225-1270): stores the slaves; sets attempts and total attempts to the minimum
across the slaves; sets began/ended to those of the slave with the most recent
began time and recomputes took; sets the state to the least advanced slave state
ONLY if the master's state is unstarted (the `!this._state` half of the source's
guard is unreachable, as the constructor always assigns a state); then recursively
pairs each sub-task with the slaves' same-named sub-tasks.  The first property
write (`this._slaveTasks = slaves`) raises on a frozen master. -/
def Task.setSlaveTasks : Task → Tasks → Except JsErr Task
  | .mk d dat subs _, slaveTasks =>
      if dat.frozen then Except.error JsErr.typeError
      else
        let slaves := slaveTasks
        let agg := slaveReduce slaves true
          { attempts := dat.attempts, total := dat.totalAttempts,
            maxBegan := none, andEnded := none }
        let st :=
          match leastAdvanced slaves with
          | some s => if dat.state.unstartedB then s else dat.state
          | none => dat.state
        let dat' :=
          { dat with
            attempts := agg.attempts, totalAttempts := agg.total, state := st,
            began := agg.maxBegan, ended := agg.andEnded,
            took := calculateTook agg.maxBegan agg.andEnded }
        do
          let subs' ← Tasks.setSlaveTasksSubs subs slaves
          Except.ok (.mk d dat' subs' slaves)
/-- Recursively makes each master sub-task a master of the slaves' same-named
sub-tasks (the final loop of `setSlaveTasks`, tasks.js lines 1264-1268). -/
def Tasks.setSlaveTasksSubs : Tasks → Tasks → Except JsErr Tasks
  | .nil, _ => Except.ok .nil
  | .cons m rest, slaves => do
      let m' ← Task.setSlaveTasks m (Tasks.collectSubSlaves (Task.name m) slaves)
      let rest' ← Tasks.setSlaveTasksSubs rest slaves
      Except.ok (.cons m' rest')
end

/-- Appends the second list of tasks after the first. -/
def Tasks.append : Tasks → Tasks → Tasks
  | .nil, ys => ys
  | .cons x xs, ys => .cons x (Tasks.append xs ys)

/-- Replaces the first task with the given name by the given task (the in-place
mutation of an existing sub-task found by `getSubTask` during
`updateFromPriorVersion`). -/
def Tasks.replaceFirstByName (name : String) (nw : Task) : Tasks → Tasks
  | .nil => .nil
  | .cons x xs =>
      if Task.name x = name then .cons nw xs
      else .cons x (Tasks.replaceFirstByName name nw xs)

mutual
/-- Updates this task's state, attempts, timing and result from the given prior
version of it (`updateFromPriorVersion`, tasks.js lines 1139-1206, after the
not-a-task and undefined checks): throws on a name mismatch; copies the old state;
keeps the old result ONLY if the old state was completed and the old error ONLY if
the old state was in the rejected family; adds the old (non-zero - JS truthiness)
attempts and total attempts to this task's; copies began/took when defined and
ended when defined or else computable from the old began and took; then updates
the same-named sub-task for each old sub-task, recreating (and updating) a task
for any old sub-task absent from this task's sub-tasks and appending it.  The
first property write (`this._state = ...`) raises on a frozen target. -/
def Task.updFPVcore : Task → Task → Except JsErr Task
  | .mk d dat subs slaves, .mk od odat osubs _ =>
      if (TaskDefT.name od) = (TaskDefT.name d) then
        if dat.frozen then Except.error JsErr.typeError
        else
          let res := if odat.state.completedB then odat.result else none
          let err := if odat.state.rejectedB then odat.error else none
          let att := if odat.attempts ≠ 0 then dat.attempts + odat.attempts else dat.attempts
          let tot :=
            if odat.totalAttempts ≠ 0 then dat.totalAttempts + odat.totalAttempts
            else dat.totalAttempts
          let beg := match odat.began with | some b => some b | none => dat.began
          let tk := match odat.took with | some k => some k | none => dat.took
          let en :=
            match odat.ended with
            | some e => some e
            | none =>
                match odat.began, odat.took with
                | some b, some k => calculateEnded (some b) (some k)
                | _, _ => dat.ended
          do
            let subs' ← Tasks.updateSubsFromOld subs osubs
            Except.ok (.mk d
              { dat with
                state := odat.state, result := res, error := err, attempts := att,
                totalAttempts := tot, began := beg, took := tk, ended := en }
              subs' slaves)
      else Except.error JsErr.mismatchedPriorVersion
/-- Iterates over the old sub-tasks (the loop of tasks.js lines 1187-1204),
updating the same-named current sub-task in place when it exists and otherwise
recreating the old sub-task from its definition, updating the copy and appending
it. -/
def Tasks.updateSubsFromOld : Tasks → Tasks → Except JsErr Tasks
  | subs, .nil => Except.ok subs
  | subs, .cons o rest => do
      let subs' ←
        match Tasks.findByName (Task.name o) subs with
        | some ex => do
            let ex' ← Task.updFPVcore ex o
            Except.ok (Tasks.replaceFirstByName (Task.name o) ex' subs)
        | none => do
            let nw ← Task.updFPVcore (mkTaskFromDef (Task.defn o)) o
            Except.ok (Tasks.append subs (.cons nw .nil))
      Tasks.updateSubsFromOld subs' rest
end

/-- Updates this task from the given prior version of it
(`updateFromPriorVersion`, tasks.js lines 1139-1206): returns this task unchanged
when no old task is given, and otherwise runs the update. -/
def Task.updateFromPriorVersion (t : Task) (old : Option Task) : Except JsErr Task :=
  match old with
  | none => Except.ok t
  | some o => Task.updFPVcore t o

mutual
/-- Walks a task-definition hierarchy from its root, accumulating the identity of
every definition visited and failing when one is seen twice (the inner `loop` of
`ensureAllTaskDefsDistinct`, task-defs.js lines 530-547; `history.indexOf` is
reference identity, modelled by `defId`). -/
def TaskDefT.walk : TaskDefT → List Nat → Except JsErr (List Nat)
  | .mk i _ _ subs, history =>
      if i ∈ history then Except.error JsErr.cyclicHierarchy
      else TaskDefs.walkList subs (history ++ [i])
/-- Walks each definition in the list in order, threading the history. -/
def TaskDefs.walkList : TaskDefs → List Nat → Except JsErr (List Nat)
  | .nil, h => Except.ok h
  | .cons x xs, h => do
      let h' ← TaskDefT.walk x h
      TaskDefs.walkList xs h'
end

/-- Ensures the combined hierarchies of the given parent root and proposed root
contain only distinct definitions (`ensureAllTaskDefsDistinct`, task-defs.js lines
524-558).  The source first resolves each argument to the root of its hierarchy
via `getRootTaskDef` (parent-pointer traversal); this embedding takes those
resolved roots directly, so when the proposed definition already belongs to the
parent's hierarchy both arguments are that shared root. -/
def TaskDef.ensureAllTaskDefsDistinct (parentRoot proposedRoot : Option TaskDefT) :
    Except JsErr Unit := do
  let h ←
    match parentRoot with
    | some p => TaskDefT.walk p []
    | none => Except.ok []
  match proposedRoot with
  | some q => do
      let _ ← TaskDefT.walk q h
      Except.ok ()
  | none => Except.ok ()

mutual
/-- Walks a task hierarchy from its root, accumulating the identity of every task
visited and failing when one is seen twice (the inner `loop` of
`ensureAllTasksDistinct`, tasks.js lines 1420-1437; `history.indexOf` is reference
identity, modelled by `taskId`). -/
def Task.walk : Task → List Nat → Except JsErr (List Nat)
  | .mk _ dat subs _, history =>
      if dat.taskId ∈ history then Except.error JsErr.cyclicHierarchy
      else Tasks.walkList subs (history ++ [dat.taskId])
/-- Walks each task in the list in order, threading the history. -/
def Tasks.walkList : Tasks → List Nat → Except JsErr (List Nat)
  | .nil, h => Except.ok h
  | .cons x xs, h => do
      let h' ← Task.walk x h
      Tasks.walkList xs h'
end

/-- Ensures the combined hierarchies of the given parent root and proposed root
contain only distinct tasks (`ensureAllTasksDistinct`, tasks.js lines 1414-1448).
As for the definition-level check, the source resolves each argument to the root
of its hierarchy via `getRootTask` before walking; this embedding takes the
resolved roots. -/
def Task.ensureAllTasksDistinct (parentRoot proposedRoot : Option Task) :
    Except JsErr Unit := do
  let h ←
    match parentRoot with
    | some p => Task.walk p []
    | none => Except.ok []
  match proposedRoot with
  | some q => do
      let _ ← Task.walk q h
      Except.ok ()
  | none => Except.ok ()

/-- Appends the second list of definitions after the first. -/
def TaskDefs.append : TaskDefs → TaskDefs → TaskDefs
  | .nil, ys => ys
  | .cons x xs, ys => .cons x (TaskDefs.append xs ys)

mutual
/-- Adds the given definition to the sub-definition list of the node with the
given identity (the `taskParent.subTaskDefs.push(this)` link of the TaskDef
constructor, task-defs.js line 360, applied inside a value tree). -/
def TaskDefT.linkUnder (parentId : Nat) (child : TaskDefT) : TaskDefT → TaskDefT
  | .mk i n m subs =>
      if i = parentId then .mk i n m (TaskDefs.append subs (.cons child .nil))
      else .mk i n m (TaskDefs.linkUnderList parentId child subs)
/-- Applies `linkUnder` across a list of definitions. -/
def TaskDefs.linkUnderList (parentId : Nat) (child : TaskDefT) : TaskDefs → TaskDefs
  | .nil => .nil
  | .cons x xs =>
      .cons (TaskDefT.linkUnder parentId child x) (TaskDefs.linkUnderList parentId child xs)
end

/-- Models attaching a definition that already lives in a hierarchy under another
node of that same hierarchy (the constructor tail, task-defs.js lines 347-361):
`getRootTaskDef` resolves both the parent and the proposed definition to their
shared root, `ensureAllTaskDefsDistinct` is run on the two roots, and ONLY when it
does not throw is the proposed definition linked under the parent. -/
def TaskDef.attachWithinHierarchy (root : TaskDefT) (parentId : Nat) (proposed : TaskDefT) :
    Except JsErr TaskDefT := do
  let _ ← TaskDef.ensureAllTaskDefsDistinct (some root) (some root)
  Except.ok (TaskDefT.linkUnder parentId proposed root)

/-- Returns the definition at the given position of the list, if any. -/
def TaskDefs.get : TaskDefs → Nat → Option TaskDefT
  | .nil, _ => none
  | .cons x _, 0 => some x
  | .cons _ xs, n + 1 => TaskDefs.get xs n

/-- Returns the sub-definition reached by following the given child indices. -/
def TaskDefT.subtreeAt : TaskDefT → List Nat → Option TaskDefT
  | t, [] => some t
  | t, i :: rest =>
      match TaskDefs.get (TaskDefT.subDefs t) i with
      | some c => TaskDefT.subtreeAt c rest
      | none => none

/-- Returns the task at the given position of the list, if any. -/
def Tasks.get : Tasks → Nat → Option Task
  | .nil, _ => none
  | .cons x _, 0 => some x
  | .cons _ xs, n + 1 => Tasks.get xs n

/-- Returns the sub-task reached by following the given child indices. -/
def Task.subtreeAt : Task → List Nat → Option Task
  | t, [] => some t
  | t, i :: rest =>
      match Tasks.get (Task.subTasks t) i with
      | some c => Task.subtreeAt c rest
      | none => none

/-- Runs a mutating method on the named sub-task of this task (the JS pattern of
calling a method on the object returned by `getSubTask`, which mutates the shared
child in place): the updated child replaces the original in `_subTasks`. -/
def Task.onSubTask (name : String) (f : Task → Except JsErr Task) : Task → Except JsErr Task
  | .mk d dat subs slaves =>
      match Tasks.findByName name subs with
      | some s => do
          let s' ← f s
          Except.ok (.mk d dat (Tasks.replaceFirstByName name s' subs) slaves)
      | none => Except.ok (.mk d dat subs slaves)

mutual
/-- True when no node of this task tree (sub-tasks and slave tasks included) is in
an unstarted state - the configuration a recursive `start` leaves a tree in. -/
def noUnstartedTreeB : Task → Bool
  | .mk _ dat subs slaves =>
      !dat.state.unstartedB && noUnstartedTreeListB subs && noUnstartedTreeListB slaves
/-- True when every task in the list has no unstarted node. -/
def noUnstartedTreeListB : Tasks → Bool
  | .nil => true
  | .cons x xs => noUnstartedTreeB x && noUnstartedTreeListB xs
end

/-- The per-instance result/error invariant of the data model: a task's result is
non-undefined only when its state is in the completed family, and its error is
non-undefined only when its state is in the rejected, failed or timed-out
families. -/
def nodeInvB (dat : TaskData) : Bool :=
  (dat.result.isNone || dat.state.completedB)
    && (dat.error.isNone || (dat.state.rejectedB || dat.state.failedB || dat.state.timedOutB))

mutual
/-- True when the result/error invariant holds at every node of this task tree
(sub-tasks and slave tasks included). -/
def invTreeB : Task → Bool
  | .mk _ dat subs slaves => nodeInvB dat && invTreeListB subs && invTreeListB slaves
/-- True when the result/error invariant holds throughout every task in the list. -/
def invTreeListB : Tasks → Bool
  | .nil => true
  | .cons x xs => invTreeB x && invTreeListB xs
end

/-- True when some task in the list is in an incomplete state (the "at least one
incomplete sub-task" configuration). -/
def Tasks.anyStateIncomplete : Tasks → Bool
  | .nil => false
  | .cons x xs => (Task.state x).incompleteB || Tasks.anyStateIncomplete xs

/-- Modelled from the spec: the running minimum of the slaves' attempts, seeded
with the first slave's attempts - the spec-side reading of "attempts = minimum
across slaves", to be compared with the source's `slaveReduce` loop. -/
def Tasks.minAttemptsFrom (a : Int) : Tasks → Int
  | .nil => a
  | .cons s rest => Tasks.minAttemptsFrom (min a (Task.attempts s)) rest

/-- Modelled from the spec: the running minimum of the slaves' total attempts,
seeded with the first slave's - the spec-side reading of "totalAttempts = minimum
across slaves". -/
def Tasks.minTotalFrom (a : Int) : Tasks → Int
  | .nil => a
  | .cons s rest => Tasks.minTotalFrom (min a (Task.totalAttempts s)) rest

/-- The task-definition tree of the scenario of C3: a root "Batch" with two
non-executable (managed) sub-task definitions "A" and "B". -/
def c3BatchDef : TaskDefT :=
  .mk 0 "Batch" false (.cons (.mk 1 "A" true .nil) (.cons (.mk 2 "B" true .nil) .nil))

/-- The scenario of C3: create the "Batch" tree, start all three tasks
recursively, complete the sub-task "A" alone, then make one recursive
`reject("unrecoverable")` call on "Batch", returning the final tree and the count
of tasks actually rejected. -/
def c3Run : Except JsErr (Task × Nat) := do
  let t1 ← Task.start 100 true (mkTaskFromDef c3BatchDef)
  let t2 ← Task.onSubTask "A" (Task.complete (some "resultA") false false) t1
  Task.reject "unrecoverable" none true t2

/-- A leaf task definition named "T" used by the revival claims. -/
def c2Def : TaskDefT := .mk 0 "T" false .nil

/-- A prior-version instance of "T" that was `Failed` with error "E" (its error
property set by `fail`, so `_error` is "E"), one attempt, with timing. -/
def c2OldFailed : Task :=
  .mk c2Def
    { taskId := 7, state := .Failed "E", attempts := 1, initialAttempts := some 0,
      totalAttempts := 1, began := some 50, ended := some 60, took := some 10,
      result := none, error := some "E", frozen := false } .nil .nil

/-- A prior-version instance of "T" that was `Completed` with result "R". -/
def c2OldCompleted : Task :=
  .mk c2Def
    { taskId := 8, state := .Completed, attempts := 1, initialAttempts := some 0,
      totalAttempts := 1, began := some 50, ended := some 60, took := some 10,
      result := some "R", error := none, frozen := false } .nil .nil

/-- A started leaf task (the post-`start` state of a fresh task named "T"). -/
def c1Started : Task :=
  .mk (.mk 0 "T" false .nil)
    { taskId := 0, state := .Started, attempts := 1, initialAttempts := some 0,
      totalAttempts := 1, began := some 10, ended := none, took := none,
      result := none, error := none, frozen := false } .nil .nil

/-- A leaf slave instance with the given identity, attempts, total attempts,
timing and state, used by the master-reduction scenario of C5. -/
def mkSlave (i : Nat) (a tot : Int) (b e tk : Option Int) (st : TaskState) : Task :=
  .mk (.mk i "M" false .nil)
    { taskId := i, state := st, attempts := a, initialAttempts := none,
      totalAttempts := tot, began := b, ended := e, took := tk,
      result := none, error := none, frozen := false } .nil .nil

/-- The freshly created master instance of the C5 scenario. -/
def c5Master : Task := mkTaskFromDef (.mk 0 "M" false .nil)

/-- The three slave instances of the C5 scenario: attempts 2, 3 and 1, total
attempts 5, 4 and 6, began times 1 < 2 < 3; the third slave (most recent began)
has ended 9. -/
def c5Slaves : Tasks :=
  .cons (mkSlave 1 2 5 (some 1) (some 11) none .Started)
    (.cons (mkSlave 2 3 4 (some 2) none (some 7) .Completed)
      (.cons (mkSlave 3 1 6 (some 3) (some 9) none .Started) .nil))

/-- A parent "P" with a single managed, still-unstarted (hence incomplete)
sub-task "C": the first configuration of C4. -/
def c4Parent : Task := mkTaskFromDef (.mk 0 "P" false (.cons (.mk 1 "C" true .nil) .nil))

/-- The same parent after its sub-task "C" has been independently completed (the
parent itself still incomplete): the second configuration of C4. -/
def c4ParentDone : Task :=
  .mk (.mk 0 "P" false (.cons (.mk 1 "C" true .nil) .nil))
    { taskId := 0, state := .Started, attempts := 1, initialAttempts := some 0,
      totalAttempts := 1, began := some 10, ended := none, took := none,
      result := none, error := none, frozen := false }
    (.cons (.mk (.mk 1 "C" true .nil)
      { taskId := 1, state := .Completed, attempts := 1, initialAttempts := some 0,
        totalAttempts := 1, began := some 10, ended := some 20, took := some 10,
        result := some "rC", error := none, frozen := false } .nil .nil) .nil) .nil

/-- A definition hierarchy used by the C6 witness: root "R" containing node "N"
(at child index 0) which itself contains node "P" (at child index 0), so that
attaching "N" under "P" would make "N" an ancestor of itself. -/
def c6DefRoot : TaskDefT :=
  .mk 0 "R" false (.cons (.mk 1 "N" true (.cons (.mk 2 "P" true .nil) .nil)) .nil)

/-- A blank task data record with the given identity, used to build instance
hierarchies with distinct object identities. -/
def blankData (i : Nat) : TaskData :=
  { taskId := i, state := .Unstarted, attempts := 0, initialAttempts := none,
    totalAttempts := 0, began := none, ended := none, took := none,
    result := none, error := none, frozen := false }

/-- The instance hierarchy matching `c6DefRoot` (distinct task identities), for
the instance-level walk. -/
def c6TaskRoot : Task :=
  .mk c6DefRoot (blankData 0)
    (.cons (.mk (.mk 1 "N" true (.cons (.mk 2 "P" true .nil) .nil)) (blankData 1)
      (.cons (.mk (.mk 2 "P" true .nil) (blankData 2) .nil .nil) .nil) .nil) .nil) .nil

/-- A fresh leaf task named "F" used by the attempt-bookkeeping witness of C7. -/
def c7Fresh : Task := mkTaskFromDef (.mk 0 "F" false .nil)

/-- Unfolds a successful monadic bind over `Except JsErr`. -/
theorem bindOk {α β : Type} {x : Except JsErr α} {f : α → Except JsErr β} {b : β} :
    (x >>= f) = Except.ok b ↔ ∃ a, x = Except.ok a ∧ f a = Except.ok b := by
  cases x <;> simp [Bind.bind, Except.bind]

/-- Unfolds a failing monadic bind over `Except JsErr`. -/
theorem bindError {α β : Type} {x : Except JsErr α} {f : α → Except JsErr β} {e : JsErr} :
    (x >>= f) = Except.error e ↔
      x = Except.error e ∨ ∃ a, x = Except.ok a ∧ f a = Except.error e := by
  cases x <;> simp [Bind.bind, Except.bind]

mutual
/-- Freezing a live (nowhere frozen) task leaves its whole tree frozen. -/
theorem freeze_fullyFrozen (t : Task) (h : unfrozenTreeB t = true) :
    fullyFrozenB (Task.freeze t) = true := by
  cases t with
  | mk d dat subs slaves =>
    rw [unfrozenTreeB] at h
    simp only [Bool.and_eq_true, Bool.not_eq_true'] at h
    obtain ⟨⟨hf, hsubs⟩, hslaves⟩ := h
    rw [Task.freeze, if_neg (by simp [hf])]
    rw [fullyFrozenB]
    simp [freezeAll_fullyFrozen subs hsubs, freezeAll_fullyFrozen slaves hslaves]
theorem freezeAll_fullyFrozen (ts : Tasks) (h : unfrozenTreeListB ts = true) :
    fullyFrozenListB (Tasks.freezeAll ts) = true := by
  cases ts with
  | nil => rfl
  | cons x xs =>
    rw [unfrozenTreeListB, Bool.and_eq_true] at h
    rw [Tasks.freezeAll, fullyFrozenListB]
    simp [freeze_fullyFrozen x h.1, freezeAll_fullyFrozen xs h.2]
end

mutual
/-- On a fully frozen tree, `start` either raises the frozen-write `TypeError` or
returns with the tree unchanged. -/
theorem start_frozen (time : Int) (rec : Bool) (t : Task) (h : fullyFrozenB t = true) :
    Task.start time rec t = Except.ok t ∨
      Task.start time rec t = Except.error JsErr.typeError := by
  cases t with
  | mk d dat subs slaves =>
    rw [fullyFrozenB] at h
    simp only [Bool.and_eq_true] at h
    obtain ⟨⟨hf, hsubs⟩, hslaves⟩ := h
    rw [Task.start]
    by_cases hu : dat.state.unstartedB = true
    · right
      simp [hu, hf, Bind.bind, Except.bind]
    · simp only [hu, Bool.false_eq_true, if_false]
      cases rec with
      | false =>
        rcases startList_frozen time false slaves hslaves with hl | hl
        · left; simp [hl, Bind.bind, Except.bind]
        · right; simp [hl, Bind.bind, Except.bind]
      | true =>
        rcases startList_frozen time true subs hsubs with hs | hs
        · rcases startList_frozen time true slaves hslaves with hl | hl
          · left; simp [hs, hl, Bind.bind, Except.bind]
          · right; simp [hs, hl, Bind.bind, Except.bind]
        · right; simp [hs, Bind.bind, Except.bind]
theorem startList_frozen (time : Int) (rec : Bool) (ts : Tasks)
    (h : fullyFrozenListB ts = true) :
    Tasks.startList time rec ts = Except.ok ts ∨
      Tasks.startList time rec ts = Except.error JsErr.typeError := by
  cases ts with
  | nil => left; rfl
  | cons x xs =>
    rw [fullyFrozenListB, Bool.and_eq_true] at h
    rw [Tasks.startList]
    rcases start_frozen time rec x h.1 with hx | hx
    · rcases startList_frozen time rec xs h.2 with hxs | hxs
      · left; simp [hx, hxs, Bind.bind, Except.bind]
      · right; simp [hx, hxs, Bind.bind, Except.bind]
    · right; simp [hx, Bind.bind, Except.bind]
end

mutual
/-- On a fully frozen tree, `complete` either raises the frozen-write `TypeError`
or returns with the tree unchanged. -/
theorem complete_frozen (r : Option String) (ov rec : Bool) (t : Task)
    (h : fullyFrozenB t = true) :
    Task.complete r ov rec t = Except.ok t ∨
      Task.complete r ov rec t = Except.error JsErr.typeError := by
  cases t with
  | mk d dat subs slaves =>
    rw [fullyFrozenB] at h
    simp only [Bool.and_eq_true] at h
    obtain ⟨⟨hf, hsubs⟩, hslaves⟩ := h
    rw [Task.complete]
    by_cases hg : (dat.state.incompleteB && (ov || !dat.state.timedOutB)) = true
    · right
      simp [hg, hf, Bind.bind, Except.bind]
    · simp only [hg, Bool.false_eq_true, if_false]
      cases rec with
      | false =>
        rcases completeList_frozen r ov false slaves hslaves with hl | hl
        · left; simp [hl, Bind.bind, Except.bind]
        · right; simp [hl, Bind.bind, Except.bind]
      | true =>
        rcases completeList_frozen r ov true subs hsubs with hs | hs
        · rcases completeList_frozen r ov true slaves hslaves with hl | hl
          · left; simp [hs, hl, Bind.bind, Except.bind]
          · right; simp [hs, hl, Bind.bind, Except.bind]
        · right; simp [hs, Bind.bind, Except.bind]
theorem completeList_frozen (r : Option String) (ov rec : Bool) (ts : Tasks)
    (h : fullyFrozenListB ts = true) :
    Tasks.completeList r ov rec ts = Except.ok ts ∨
      Tasks.completeList r ov rec ts = Except.error JsErr.typeError := by
  cases ts with
  | nil => left; rfl
  | cons x xs =>
    rw [fullyFrozenListB, Bool.and_eq_true] at h
    rw [Tasks.completeList]
    rcases complete_frozen r ov rec x h.1 with hx | hx
    · rcases completeList_frozen r ov rec xs h.2 with hxs | hxs
      · left; simp [hx, hxs, Bind.bind, Except.bind]
      · right; simp [hx, hxs, Bind.bind, Except.bind]
    · right; simp [hx, Bind.bind, Except.bind]
end

mutual
/-- On a fully frozen tree, `fail` with an error supplied either raises the
frozen-write `TypeError` or returns with the tree unchanged. -/
theorem fail_frozen (e : String) (rec : Bool) (t : Task) (h : fullyFrozenB t = true) :
    Task.fail (some e) rec t = Except.ok t ∨
      Task.fail (some e) rec t = Except.error JsErr.typeError := by
  cases t with
  | mk d dat subs slaves =>
    rw [fullyFrozenB] at h
    simp only [Bool.and_eq_true] at h
    obtain ⟨⟨hf, hsubs⟩, hslaves⟩ := h
    rw [Task.fail]
    by_cases hg : (!dat.state.timedOutB && !dat.state.rejectedB && !dat.state.failedB) = true
    · right
      simp [hg, hf, Bind.bind, Except.bind]
    · simp only [hg, Bool.false_eq_true, if_false]
      cases rec with
      | false =>
        rcases failList_frozen e false slaves hslaves with hl | hl
        · left; simp [hl, Bind.bind, Except.bind]
        · right; simp [hl, Bind.bind, Except.bind]
      | true =>
        rcases failList_frozen e true subs hsubs with hs | hs
        · rcases failList_frozen e true slaves hslaves with hl | hl
          · left; simp [hs, hl, Bind.bind, Except.bind]
          · right; simp [hs, hl, Bind.bind, Except.bind]
        · right; simp [hs, Bind.bind, Except.bind]
theorem failList_frozen (e : String) (rec : Bool) (ts : Tasks)
    (h : fullyFrozenListB ts = true) :
    Tasks.failList (some e) rec ts = Except.ok ts ∨
      Tasks.failList (some e) rec ts = Except.error JsErr.typeError := by
  cases ts with
  | nil => left; rfl
  | cons x xs =>
    rw [fullyFrozenListB, Bool.and_eq_true] at h
    rw [Tasks.failList]
    rcases fail_frozen e rec x h.1 with hx | hx
    · rcases failList_frozen e rec xs h.2 with hxs | hxs
      · left; simp [hx, hxs, Bind.bind, Except.bind]
      · right; simp [hx, hxs, Bind.bind, Except.bind]
    · right; simp [hx, Bind.bind, Except.bind]
end

mutual
/-- On a fully frozen tree, `reject` either raises the frozen-write `TypeError`
or returns with the tree unchanged and a zero count. -/
theorem reject_frozen (reason : String) (err : Option String) (rec : Bool) (t : Task)
    (h : fullyFrozenB t = true) :
    Task.reject reason err rec t = Except.ok (t, 0) ∨
      Task.reject reason err rec t = Except.error JsErr.typeError := by
  cases t with
  | mk d dat subs slaves =>
    rw [fullyFrozenB] at h
    simp only [Bool.and_eq_true] at h
    obtain ⟨⟨hf, hsubs⟩, hslaves⟩ := h
    rw [Task.reject]
    rcases rejectList_frozen reason err rec slaves hslaves with hl | hl
    · cases rec with
      | false =>
        by_cases hg : (dat.state.incompleteB && Tasks.allFullyFinalised subs) = true
        · right; simp [hl, hg, hf, Bind.bind, Except.bind]
        · left; simp [hl, hg, Bind.bind, Except.bind]
      | true =>
        rcases rejectList_frozen reason err true subs hsubs with hs | hs
        · by_cases hg : (dat.state.incompleteB && Tasks.allFullyFinalised subs) = true
          · right; simp [hs, hl, hg, hf, Bind.bind, Except.bind]
          · left; simp [hs, hl, hg, Bind.bind, Except.bind]
        · right; simp [hs, Bind.bind, Except.bind]
    · cases rec with
      | false => right; simp [hl, Bind.bind, Except.bind]
      | true =>
        rcases rejectList_frozen reason err true subs hsubs with hs | hs
        · right; simp [hs, hl, Bind.bind, Except.bind]
        · right; simp [hs, Bind.bind, Except.bind]
theorem rejectList_frozen (reason : String) (err : Option String) (rec : Bool) (ts : Tasks)
    (h : fullyFrozenListB ts = true) :
    Tasks.rejectList reason err rec ts = Except.ok (ts, 0) ∨
      Tasks.rejectList reason err rec ts = Except.error JsErr.typeError := by
  cases ts with
  | nil => left; rfl
  | cons x xs =>
    rw [fullyFrozenListB, Bool.and_eq_true] at h
    rw [Tasks.rejectList]
    rcases reject_frozen reason err rec x h.1 with hx | hx
    · rcases rejectList_frozen reason err rec xs h.2 with hxs | hxs
      · left; simp [hx, hxs, Bind.bind, Except.bind]
      · right; simp [hx, hxs, Bind.bind, Except.bind]
    · right; simp [hx, Bind.bind, Except.bind]
end

/-- C1, counterexample: on a frozen (previously started, incomplete) task, a
subsequent `complete` call is NOT a silent no-op - the strict-mode write to the
frozen object raises a `TypeError`, refuting the claim that no error is raised. -/
theorem c1_counterexample_frozen_complete_raises :
    Task.complete (some "r") false false (Task.freeze c1Started) =
      Except.error JsErr.typeError := rfl

/-- C1, amended: `freeze()` leaves a (live) task's whole tree frozen, and on such
a fully frozen tree every subsequent `start`/`complete`/`fail`/`reject` call
leaves state, attempts, result and error exactly as they were (and `isFrozen()`
still reports true), but the call is not always silent: whenever its state guard
would have permitted a mutation, the strict-mode write to the frozen object
raises a `TypeError`, and the call is a silent no-op only when its guard already
blocks the mutation. -/
theorem c1_frozen_mutators_unchanged_or_typeError
    (u t : Task) (time : Int) (r : Option String) (ov rec : Bool) (e reason : String)
    (err : Option String) (hu : unfrozenTreeB u = true) (h : fullyFrozenB t = true) :
    fullyFrozenB (Task.freeze u) = true
    ∧ Task.isFrozen t = true
    ∧ (Task.start time rec t = Except.ok t ∨
        Task.start time rec t = Except.error JsErr.typeError)
    ∧ (Task.complete r ov rec t = Except.ok t ∨
        Task.complete r ov rec t = Except.error JsErr.typeError)
    ∧ (Task.fail (some e) rec t = Except.ok t ∨
        Task.fail (some e) rec t = Except.error JsErr.typeError)
    ∧ (Task.reject reason err rec t = Except.ok (t, 0) ∨
        Task.reject reason err rec t = Except.error JsErr.typeError) := by
  refine ⟨freeze_fullyFrozen u hu, ?_, start_frozen time rec t h,
    complete_frozen r ov rec t h, fail_frozen e rec t h, reject_frozen reason err rec t h⟩
  cases t with
  | mk d dat subs slaves =>
    rw [fullyFrozenB] at h
    simp only [Bool.and_eq_true] at h
    exact h.1.1

/-- C1, witness: the amended theorem applied to the concrete started task
`c1Started` after freezing it. -/
theorem c1_frozen_mutators_witness :
    unfrozenTreeB c1Started = true
    ∧ (Task.complete (some "r") false false (Task.freeze c1Started) =
          Except.ok (Task.freeze c1Started) ∨
        Task.complete (some "r") false false (Task.freeze c1Started) =
          Except.error JsErr.typeError) :=
  ⟨rfl,
    (c1_frozen_mutators_unchanged_or_typeError c1Started (Task.freeze c1Started) 0 (some "r")
      false false "e" "why" none rfl rfl).2.2.2.1⟩

/-- C3: in the "Batch" scenario - root task "Batch" with managed sub-tasks "A"
and "B", all started recursively, "A" completed alone - a single recursive
`reject("unrecoverable")` call on "Batch" rejects both "B" and "Batch" in that
same call (count 2), ending with "A" Completed, "B" Rejected and "Batch"
Rejected. -/
theorem c3_batch_scenario :
    (c3Run.map fun p =>
      ((Task.getSubTask p.1 "A").map Task.state,
       (Task.getSubTask p.1 "B").map Task.state,
       Task.state p.1, p.2))
    = Except.ok (some .Completed, some (.Rejected "unrecoverable" none),
        .Rejected "unrecoverable" none, 2) := rfl

/-- The name of a freshly created task is its definition's name. -/
theorem mkTaskFromDef_name (d : TaskDefT) : Task.name (mkTaskFromDef d) = TaskDefT.name d := by
  cases d; rfl

mutual
/-- A freshly created task tree is nowhere frozen. -/
theorem mkTaskFromDef_unfrozen (d : TaskDefT) : unfrozenTreeB (mkTaskFromDef d) = true := by
  cases d with
  | mk i n m subDefs =>
    rw [mkTaskFromDef, unfrozenTreeB]
    simp [mkTasksFromDefs_unfrozen subDefs, unfrozenTreeListB]
theorem mkTasksFromDefs_unfrozen (ds : TaskDefs) :
    unfrozenTreeListB (mkTasksFromDefs ds) = true := by
  cases ds with
  | nil => rfl
  | cons d ds =>
    rw [mkTasksFromDefs, unfrozenTreeListB]
    simp [mkTaskFromDef_unfrozen d, mkTasksFromDefs_unfrozen ds]
end

/-- A task found by name has that name. -/
theorem findByName_name (n : String) :
    ∀ (ts : Tasks) (x : Task), Tasks.findByName n ts = some x → Task.name x = n
  | .nil, x, h => by simp [Tasks.findByName] at h
  | .cons y ys, x, h => by
      rw [Tasks.findByName] at h
      by_cases he : Task.name y = n
      · rw [if_pos he] at h
        cases h
        exact he
      · rw [if_neg he] at h
        exact findByName_name n ys x h

/-- A task found by name in a list of unfrozen trees is an unfrozen tree. -/
theorem findByName_unfrozen (n : String) :
    ∀ (ts : Tasks) (x : Task), unfrozenTreeListB ts = true →
      Tasks.findByName n ts = some x → unfrozenTreeB x = true
  | .nil, x, _, h => by simp [Tasks.findByName] at h
  | .cons y ys, x, hu, h => by
      rw [unfrozenTreeListB, Bool.and_eq_true] at hu
      rw [Tasks.findByName] at h
      by_cases he : Task.name y = n
      · rw [if_pos he] at h
        cases h
        exact hu.1
      · rw [if_neg he] at h
        exact findByName_unfrozen n ys x hu.2 h

/-- Replacing a task by an unfrozen tree keeps the list all-unfrozen. -/
theorem replaceFirstByName_unfrozen (n : String) (nw : Task) (hw : unfrozenTreeB nw = true) :
    ∀ (ts : Tasks), unfrozenTreeListB ts = true →
      unfrozenTreeListB (Tasks.replaceFirstByName n nw ts) = true
  | .nil, _ => rfl
  | .cons y ys, hu => by
      rw [unfrozenTreeListB, Bool.and_eq_true] at hu
      rw [Tasks.replaceFirstByName]
      by_cases he : Task.name y = n
      · rw [if_pos he, unfrozenTreeListB]
        simp [hw, hu.2]
      · rw [if_neg he, unfrozenTreeListB]
        simp [hu.1, replaceFirstByName_unfrozen n nw hw ys hu.2]

/-- Appending two all-unfrozen lists yields an all-unfrozen list. -/
theorem append_unfrozen :
    ∀ (a b : Tasks), unfrozenTreeListB a = true → unfrozenTreeListB b = true →
      unfrozenTreeListB (Tasks.append a b) = true
  | .nil, b, _, hb => hb
  | .cons x xs, b, ha, hb => by
      rw [unfrozenTreeListB, Bool.and_eq_true] at ha
      rw [Tasks.append, unfrozenTreeListB]
      simp [ha.1, append_unfrozen xs b ha.2 hb]

mutual
/-- On an unfrozen target whose name matches the prior version's,
`updFPVcore` succeeds and returns an unfrozen tree. -/
theorem updFPVcore_ok (t o : Task) (hu : unfrozenTreeB t = true)
    (hn : Task.name t = Task.name o) :
    ∃ u, Task.updFPVcore t o = Except.ok u ∧ unfrozenTreeB u = true := by
  cases t with
  | mk d dat subs slaves =>
    cases o with
    | mk od odat osubs oslaves =>
      rw [unfrozenTreeB] at hu
      simp only [Bool.and_eq_true, Bool.not_eq_true'] at hu
      obtain ⟨⟨hf, hsubs⟩, hslaves⟩ := hu
      have hnames : TaskDefT.name od = TaskDefT.name d := by
        simpa [Task.name, Task.defn] using hn.symm
      obtain ⟨subs', hsubs', hsubsU⟩ := updateSubsFromOld_ok subs osubs hsubs
      rw [Task.updFPVcore, if_pos hnames, if_neg (by simp [hf])]
      simp only [hsubs', Bind.bind, Except.bind]
      exact ⟨_, rfl, by rw [unfrozenTreeB]; simp [hf, hsubsU, hslaves]⟩
theorem updateSubsFromOld_ok (subs olds : Tasks) (h : unfrozenTreeListB subs = true) :
    ∃ subs', Tasks.updateSubsFromOld subs olds = Except.ok subs' ∧
      unfrozenTreeListB subs' = true := by
  cases olds with
  | nil => exact ⟨subs, rfl, h⟩
  | cons o rest =>
    rw [Tasks.updateSubsFromOld]
    cases hfind : Tasks.findByName (Task.name o) subs with
    | some ex =>
      obtain ⟨ex', hex, hexU⟩ :=
        updFPVcore_ok ex o (findByName_unfrozen _ subs ex h hfind)
          (findByName_name _ subs ex hfind)
      obtain ⟨subs', hrec, hrecU⟩ :=
        updateSubsFromOld_ok (Tasks.replaceFirstByName (Task.name o) ex' subs) rest
          (replaceFirstByName_unfrozen _ ex' hexU subs h)
      exact ⟨subs', by simp [hfind, hex, hrec, Bind.bind, Except.bind], hrecU⟩
    | none =>
      have hmkname : Task.name (mkTaskFromDef (Task.defn o)) = Task.name o := by
        rw [mkTaskFromDef_name]
        rfl
      obtain ⟨nw, hnw, hnwU⟩ :=
        updFPVcore_ok (mkTaskFromDef (Task.defn o)) o
          (mkTaskFromDef_unfrozen (Task.defn o)) hmkname
      obtain ⟨subs', hrec, hrecU⟩ :=
        updateSubsFromOld_ok (Tasks.append subs (.cons nw .nil)) rest
          (append_unfrozen subs (.cons nw .nil) h (by rw [unfrozenTreeListB]; simp [hnwU, unfrozenTreeListB]))
      exact ⟨subs', by simp [hfind, hnw, hrec, Bind.bind, Except.bind], hrecU⟩
end

/-- C2, counterexample: reviving the prior `Failed` (error "E") instance
`c2OldFailed` into a newly created same-named instance yields state `Failed "E"`
and `result === undefined`, but the instance's error property is `undefined`
rather than the claimed "E" (the error is only preserved when the prior state was
in the rejected family). -/
theorem c2_counterexample_failed_revival_error_dropped :
    (Task.updateFromPriorVersion (mkTaskFromDef c2Def) (some c2OldFailed)).map
        (fun (u : Task) => (Task.state u, (Task.data u).result, (Task.data u).error))
      = Except.ok (TaskState.Failed "E", none, none)
    ∧ (none : Option String) ≠ some "E" :=
  ⟨rfl, by decide⟩

/-- C2, amended: `updateFromPriorVersion` on a newly created Unstarted instance,
given a same-named prior instance that was Completed with result R, yields that
completed state and result R; given a same-named prior instance that was Failed
with error E, it yields state Failed-with-E and `result === undefined`, and the
instance's error property is also `undefined` (the error property is preserved
only for prior states in the rejected family; the failed state object itself
still carries E). -/
theorem c2_revival_result_error_policy (d : TaskDefT) (o : Task) (R E : String)
    (hname : TaskDefT.name d = Task.name o) :
    ((Task.state o).completedB = true → (Task.data o).result = some R →
      ∃ u, Task.updateFromPriorVersion (mkTaskFromDef d) (some o) = Except.ok u ∧
        Task.state u = Task.state o ∧ (Task.data u).result = some R)
    ∧ (Task.state o = .Failed E →
      ∃ u, Task.updateFromPriorVersion (mkTaskFromDef d) (some o) = Except.ok u ∧
        Task.state u = .Failed E ∧ (Task.data u).result = none ∧
        (Task.data u).error = none) := by
  cases d with
  | mk i n m subDefs =>
    cases o with
    | mk od odat osubs oslaves =>
      have hnames : TaskDefT.name od = TaskDefT.name (TaskDefT.mk i n m subDefs) := by
        simpa [Task.name, Task.defn] using hname.symm
      obtain ⟨subs', hsubs', _⟩ :=
        updateSubsFromOld_ok (mkTasksFromDefs subDefs) osubs (mkTasksFromDefs_unfrozen subDefs)
      rw [Task.updateFromPriorVersion, mkTaskFromDef, Task.updFPVcore, if_pos hnames,
        if_neg (by simp)]
      simp only [hsubs', Bind.bind, Except.bind]
      constructor
      · intro hc hr
        simp only [Task.state, Task.data] at hc hr
        refine ⟨_, rfl, ?_, ?_⟩
        · simp [Task.state, Task.data]
        · simp [Task.state, Task.data, hc, hr]
      · intro hfail
        simp only [Task.state, Task.data] at hfail
        refine ⟨_, rfl, ?_, ?_, ?_⟩
        · simp [Task.state, Task.data, hfail]
        · simp [Task.state, Task.data, hfail, TaskState.completedB]
        · simp [Task.state, Task.data, hfail, TaskState.rejectedB]

/-- C2, witness: the amended theorem applied to a prior Completed instance with
result "R" and to the prior Failed instance with error "E". -/
theorem c2_revival_witness :
    (∃ u, Task.updateFromPriorVersion (mkTaskFromDef c2Def) (some c2OldCompleted) =
        Except.ok u ∧ Task.state u = Task.state c2OldCompleted ∧
        (Task.data u).result = some "R")
    ∧ (∃ v, Task.updateFromPriorVersion (mkTaskFromDef c2Def) (some c2OldFailed) =
        Except.ok v ∧ Task.state v = .Failed "E" ∧ (Task.data v).result = none ∧
        (Task.data v).error = none) :=
  ⟨(c2_revival_result_error_policy c2Def c2OldCompleted "R" "E" rfl).1 rfl rfl,
   (c2_revival_result_error_policy c2Def c2OldFailed "R" "E" rfl).2 rfl⟩

/-- An incomplete state is not finalised. -/
theorem incompleteB_finalisedB (s : TaskState) (h : s.incompleteB = true) :
    s.finalisedB = false := by
  rw [TaskState.incompleteB, Bool.and_eq_true, Bool.not_eq_true', Bool.not_eq_true'] at h
  rw [TaskState.finalisedB, h.1, h.2]
  rfl

/-- A list holding a task in an incomplete state is not all fully finalised. -/
theorem anyIncomplete_not_allFinalised :
    ∀ (ts : Tasks), Tasks.anyStateIncomplete ts = true →
      Tasks.allFullyFinalised ts = false
  | .nil, h => by simp [Tasks.anyStateIncomplete] at h
  | .cons x xs, h => by
      rw [Tasks.anyStateIncomplete, Bool.or_eq_true] at h
      rw [Tasks.allFullyFinalised]
      rcases h with h | h
      · have hx : Task.isFullyFinalised x = false := by
          cases x with
          | mk d dat subs slaves =>
            simp only [Task.state, Task.data] at h
            rw [Task.isFullyFinalised, incompleteB_finalisedB dat.state h]
            rfl
        simp [hx]
      · simp [anyIncomplete_not_allFinalised xs h]

mutual
/-- On an unfrozen tree, `reject` never throws. -/
theorem reject_ok (reason : String) (err : Option String) (rec : Bool) (t : Task)
    (h : unfrozenTreeB t = true) :
    ∃ p, Task.reject reason err rec t = Except.ok p := by
  cases t with
  | mk d dat subs slaves =>
    rw [unfrozenTreeB] at h
    simp only [Bool.and_eq_true, Bool.not_eq_true'] at h
    obtain ⟨⟨hf, hsubs⟩, hslaves⟩ := h
    obtain ⟨sl, hsl⟩ := rejectList_ok reason err rec slaves hslaves
    rw [Task.reject]
    cases rec with
    | false =>
      by_cases hg : (dat.state.incompleteB && Tasks.allFullyFinalised subs) = true
      · simp [hsl, hg, hf, Bind.bind, Except.bind]
      · simp [hsl, hg, Bind.bind, Except.bind]
    | true =>
      obtain ⟨sc, hsc⟩ := rejectList_ok reason err true subs hsubs
      by_cases hg : (dat.state.incompleteB && Tasks.allFullyFinalised sc.1) = true
      · simp [hsc, hsl, hg, hf, Bind.bind, Except.bind]
      · simp [hsc, hsl, hg, Bind.bind, Except.bind]
theorem rejectList_ok (reason : String) (err : Option String) (rec : Bool) (ts : Tasks)
    (h : unfrozenTreeListB ts = true) :
    ∃ ps, Tasks.rejectList reason err rec ts = Except.ok ps := by
  cases ts with
  | nil => exact ⟨(.nil, 0), rfl⟩
  | cons x xs =>
    rw [unfrozenTreeListB, Bool.and_eq_true] at h
    obtain ⟨xp, hx⟩ := reject_ok reason err rec x h.1
    obtain ⟨xsp, hxs⟩ := rejectList_ok reason err rec xs h.2
    rw [Tasks.rejectList]
    simp [hx, hxs, Bind.bind, Except.bind]
end

/-- C4: a parent that is itself incomplete and has at least one sub-task in an
incomplete state cannot be rejected by a non-recursive `reject` call on the
parent alone - the call returns count 0 and leaves the parent's state unchanged
(hence still incomplete); once every sub-task has been independently finalised,
the same call returns 1 and the parent's state becomes Rejected. -/
theorem c4_reject_bottom_up (t : Task) (reason : String) (err : Option String)
    (hu : unfrozenTreeB t = true) (hinc : (Task.state t).incompleteB = true) :
    (Tasks.anyStateIncomplete (Task.subTasks t) = true →
      ∃ t', Task.reject reason err false t = Except.ok (t', 0) ∧
        Task.state t' = Task.state t)
    ∧ (Tasks.allFullyFinalised (Task.subTasks t) = true →
      ∃ t', Task.reject reason err false t = Except.ok (t', 1) ∧
        Task.state t' = .Rejected reason err) := by
  cases t with
  | mk d dat subs slaves =>
    rw [unfrozenTreeB] at hu
    simp only [Bool.and_eq_true, Bool.not_eq_true'] at hu
    obtain ⟨⟨hf, hsubs⟩, hslaves⟩ := hu
    simp only [Task.state, Task.data, Task.subTasks] at hinc ⊢
    obtain ⟨sl, hsl⟩ := rejectList_ok reason err false slaves hslaves
    rw [Task.reject]
    constructor
    · intro hany
      have hfin := anyIncomplete_not_allFinalised subs hany
      simp [hsl, hfin, Bind.bind, Except.bind, Task.state, Task.data]
    · intro hall
      simp [hsl, hall, hinc, hf, Bind.bind, Except.bind, Task.state, Task.data]

/-- C4, witness: the theorem applied to a parent with an unstarted sub-task
(reject refused, count 0) and to the same parent once its sub-task is completed
(reject succeeds, count 1). -/
theorem c4_reject_bottom_up_witness :
    (∃ t', Task.reject "why" none false c4Parent = Except.ok (t', 0) ∧
      Task.state t' = Task.state c4Parent)
    ∧ (∃ t', Task.reject "why" none false c4ParentDone = Except.ok (t', 1) ∧
      Task.state t' = .Rejected "why" none) :=
  ⟨(c4_reject_bottom_up c4Parent "why" none rfl rfl).1 rfl,
   (c4_reject_bottom_up c4ParentDone "why" none rfl rfl).2 rfl⟩

/-- After its seeded first step, the slave-reduction loop computes the running
minimum of the slaves' attempts. -/
theorem slaveReduce_attempts :
    ∀ (rest : Tasks) (agg : SlaveAgg),
      (slaveReduce rest false agg).attempts = Tasks.minAttemptsFrom agg.attempts rest
  | .nil, _ => rfl
  | .cons s rest, agg => by
      rw [slaveReduce, Tasks.minAttemptsFrom]
      simpa using slaveReduce_attempts rest _

/-- After its seeded first step, the slave-reduction loop computes the running
minimum of the slaves' total attempts. -/
theorem slaveReduce_total :
    ∀ (rest : Tasks) (agg : SlaveAgg),
      (slaveReduce rest false agg).total = Tasks.minTotalFrom agg.total rest
  | .nil, _ => rfl
  | .cons s rest, agg => by
      rw [slaveReduce, Tasks.minTotalFrom]
      simpa using slaveReduce_total rest _

mutual
/-- On an unfrozen master tree, `setSlaveTasks` never throws. -/
theorem setSlaveTasks_ok (t : Task) (slaves : Tasks) (h : unfrozenTreeB t = true) :
    ∃ t', Task.setSlaveTasks t slaves = Except.ok t' := by
  cases t with
  | mk d dat subs oldSlaves =>
    rw [unfrozenTreeB] at h
    simp only [Bool.and_eq_true, Bool.not_eq_true'] at h
    obtain ⟨⟨hf, hsubs⟩, _⟩ := h
    obtain ⟨subs', hsubs'⟩ := setSlaveTasksSubs_ok subs slaves hsubs
    rw [Task.setSlaveTasks, if_neg (by simp [hf])]
    simp [hsubs', Bind.bind, Except.bind]
theorem setSlaveTasksSubs_ok (subs slaves : Tasks) (h : unfrozenTreeListB subs = true) :
    ∃ subs', Tasks.setSlaveTasksSubs subs slaves = Except.ok subs' := by
  cases subs with
  | nil => exact ⟨.nil, rfl⟩
  | cons m rest =>
    rw [unfrozenTreeListB, Bool.and_eq_true] at h
    obtain ⟨m', hm⟩ := setSlaveTasks_ok m (Tasks.collectSubSlaves (Task.name m) slaves) h.1
    obtain ⟨rest', hrest⟩ := setSlaveTasksSubs_ok rest slaves h.2
    rw [Tasks.setSlaveTasksSubs]
    simp [hm, hrest, Bind.bind, Except.bind]
end

/-- C5: on the concrete scenario - a freshly created (unstarted) master with
three slaves whose attempts are 2, 3, 1, total attempts 5, 4, 6, began times
1 < 2 < 3, the third slave having ended 9 - `setSlaveTasks` yields master
attempts 1 and total attempts 4 (the minima), began 3 and ended 9 (the began/
ended of the slave with the most recent began), and the Started state (the least
advanced slave state, taken because the master was unstarted); and in general on
any unfrozen master the resulting attempts and total attempts are the minima
across the slaves, while the state is replaced by the least advanced slave state
ONLY if the master's state is unstarted (a master whose `_state` is undefined
cannot arise, as the constructor always assigns one). -/
theorem c5_master_reduction :
    ((Task.setSlaveTasks c5Master c5Slaves).map
        (fun (mr : Task) => ((Task.data mr).attempts, (Task.data mr).totalAttempts,
          (Task.data mr).began, (Task.data mr).ended, Task.state mr))
      = Except.ok (1, 4, some 3, some 9, .Started))
    ∧ (∀ (m : Task) (slaves : Tasks), unfrozenTreeB m = true →
        ∃ m', Task.setSlaveTasks m slaves = Except.ok m' ∧
          (∀ s rest, slaves = .cons s rest →
            (Task.data m').attempts = Tasks.minAttemptsFrom (Task.attempts s) rest ∧
            (Task.data m').totalAttempts = Tasks.minTotalFrom (Task.totalAttempts s) rest) ∧
          ((Task.state m).unstartedB = false → Task.state m' = Task.state m) ∧
          (∀ ls, (Task.state m).unstartedB = true → leastAdvanced slaves = some ls →
            Task.state m' = ls)) := by
  constructor
  · rfl
  · intro m slaves hu
    cases m with
    | mk d dat subs oldSlaves =>
      rw [unfrozenTreeB] at hu
      simp only [Bool.and_eq_true, Bool.not_eq_true'] at hu
      obtain ⟨⟨hf, hsubs⟩, _⟩ := hu
      obtain ⟨subs', hsubs'⟩ := setSlaveTasksSubs_ok subs slaves hsubs
      rw [Task.setSlaveTasks, if_neg (by simp [hf])]
      simp only [hsubs', Bind.bind, Except.bind]
      refine ⟨_, rfl, ?_, ?_, ?_⟩
      · intro s rest hsl
        subst hsl
        constructor
        · rw [slaveReduce]
          simp [Task.state, Task.data, slaveReduce_attempts]
        · rw [slaveReduce]
          simp [Task.state, Task.data, slaveReduce_total]
      · intro hns
        simp only [Task.state, Task.data] at hns ⊢
        cases hla : leastAdvanced slaves with
        | none => simp
        | some ls => simp [hns]
      · intro ls hus hla
        simp only [Task.state, Task.data] at hus ⊢
        rw [hla]
        simp [hus]

/-- C5, witness: the general part applied to the concrete unstarted master and
its three slaves, whose least advanced state is Started. -/
theorem c5_master_reduction_witness :
    unfrozenTreeB c5Master = true
    ∧ ∃ m', Task.setSlaveTasks c5Master c5Slaves = Except.ok m' ∧
        Task.state m' = .Started := by
  refine ⟨rfl, ?_⟩
  obtain ⟨m', hm, _, _, hleast⟩ := (c5_master_reduction).2 c5Master c5Slaves rfl
  exact ⟨m', hm, hleast .Started rfl rfl⟩

mutual
/-- The definition walk only ever grows its history. -/
theorem walkDef_subset (t : TaskDefT) (h h' : List Nat)
    (hw : TaskDefT.walk t h = Except.ok h') : ∀ a, a ∈ h → a ∈ h' := by
  cases t with
  | mk i n m subs =>
    rw [TaskDefT.walk] at hw
    by_cases hi : i ∈ h
    · rw [if_pos hi] at hw
      exact absurd hw (by simp)
    · rw [if_neg hi] at hw
      intro a ha
      exact walkDefs_subset subs (h ++ [i]) h' hw a (by simp [ha])
theorem walkDefs_subset (ts : TaskDefs) (h h' : List Nat)
    (hw : TaskDefs.walkList ts h = Except.ok h') : ∀ a, a ∈ h → a ∈ h' := by
  cases ts with
  | nil =>
    rw [TaskDefs.walkList] at hw
    cases hw
    exact fun a ha => ha
  | cons x xs =>
    rw [TaskDefs.walkList] at hw
    rw [bindOk] at hw
    obtain ⟨hm, hx, hxs⟩ := hw
    intro a ha
    exact walkDefs_subset xs hm h' hxs a (walkDef_subset x h hm hx a ha)
end

/-- A successful definition walk records the root's identity in its history. -/
theorem walkDef_mem (t : TaskDefT) (h h' : List Nat)
    (hw : TaskDefT.walk t h = Except.ok h') : TaskDefT.defId t ∈ h' := by
  cases t with
  | mk i n m subs =>
    rw [TaskDefT.walk] at hw
    by_cases hi : i ∈ h
    · rw [if_pos hi] at hw
      exact absurd hw (by simp)
    · rw [if_neg hi] at hw
      exact walkDefs_subset subs (h ++ [i]) h' hw i (by simp)

mutual
/-- The only error the definition walk can throw is the cyclic-hierarchy one. -/
theorem walkDef_error (t : TaskDefT) (h : List Nat) (e : JsErr)
    (hw : TaskDefT.walk t h = Except.error e) : e = JsErr.cyclicHierarchy := by
  cases t with
  | mk i n m subs =>
    rw [TaskDefT.walk] at hw
    by_cases hi : i ∈ h
    · rw [if_pos hi] at hw
      cases hw
      rfl
    · rw [if_neg hi] at hw
      exact walkDefs_error subs (h ++ [i]) e hw
theorem walkDefs_error (ts : TaskDefs) (h : List Nat) (e : JsErr)
    (hw : TaskDefs.walkList ts h = Except.error e) : e = JsErr.cyclicHierarchy := by
  cases ts with
  | nil => exact absurd hw (by rw [TaskDefs.walkList]; simp)
  | cons x xs =>
    rw [TaskDefs.walkList, bindError] at hw
    rcases hw with hw | ⟨hm, hx, hxs⟩
    · exact walkDef_error x h e hw
    · exact walkDefs_error xs hm e hxs
end

/-- Checking a definition hierarchy against its own root always throws the
cyclic-hierarchy error: the root is recorded by the first walk (or that walk
already found a duplicate) and is then immediately seen again by the second. -/
theorem ensureDefs_self_error (R : TaskDefT) :
    TaskDef.ensureAllTaskDefsDistinct (some R) (some R) =
      Except.error JsErr.cyclicHierarchy := by
  rw [TaskDef.ensureAllTaskDefsDistinct]
  cases hw : TaskDefT.walk R [] with
  | error e =>
    have he := walkDef_error R [] e hw
    subst he
    simp [hw, Bind.bind, Except.bind]
  | ok h =>
    have hmem := walkDef_mem R [] h hw
    cases R with
    | mk i n m subs =>
      simp only [TaskDefT.defId] at hmem
      simp [hw, Bind.bind, Except.bind, TaskDefT.walk, hmem]

mutual
/-- The instance walk only ever grows its history. -/
theorem walkTask_subset (t : Task) (h h' : List Nat)
    (hw : Task.walk t h = Except.ok h') : ∀ a, a ∈ h → a ∈ h' := by
  cases t with
  | mk d dat subs slaves =>
    rw [Task.walk] at hw
    by_cases hi : dat.taskId ∈ h
    · rw [if_pos hi] at hw
      exact absurd hw (by simp)
    · rw [if_neg hi] at hw
      intro a ha
      exact walkTasks_subset subs (h ++ [dat.taskId]) h' hw a (by simp [ha])
theorem walkTasks_subset (ts : Tasks) (h h' : List Nat)
    (hw : Tasks.walkList ts h = Except.ok h') : ∀ a, a ∈ h → a ∈ h' := by
  cases ts with
  | nil =>
    rw [Tasks.walkList] at hw
    cases hw
    exact fun a ha => ha
  | cons x xs =>
    rw [Tasks.walkList, bindOk] at hw
    obtain ⟨hm, hx, hxs⟩ := hw
    intro a ha
    exact walkTasks_subset xs hm h' hxs a (walkTask_subset x h hm hx a ha)
end

/-- A successful instance walk records the root's identity in its history. -/
theorem walkTask_mem (t : Task) (h h' : List Nat)
    (hw : Task.walk t h = Except.ok h') : (Task.data t).taskId ∈ h' := by
  cases t with
  | mk d dat subs slaves =>
    rw [Task.walk] at hw
    by_cases hi : dat.taskId ∈ h
    · rw [if_pos hi] at hw
      exact absurd hw (by simp)
    · rw [if_neg hi] at hw
      exact walkTasks_subset subs (h ++ [dat.taskId]) h' hw dat.taskId (by simp)

mutual
/-- The only error the instance walk can throw is the cyclic-hierarchy one. -/
theorem walkTask_error (t : Task) (h : List Nat) (e : JsErr)
    (hw : Task.walk t h = Except.error e) : e = JsErr.cyclicHierarchy := by
  cases t with
  | mk d dat subs slaves =>
    rw [Task.walk] at hw
    by_cases hi : dat.taskId ∈ h
    · rw [if_pos hi] at hw
      cases hw
      rfl
    · rw [if_neg hi] at hw
      exact walkTasks_error subs (h ++ [dat.taskId]) e hw
theorem walkTasks_error (ts : Tasks) (h : List Nat) (e : JsErr)
    (hw : Tasks.walkList ts h = Except.error e) : e = JsErr.cyclicHierarchy := by
  cases ts with
  | nil => exact absurd hw (by rw [Tasks.walkList]; simp)
  | cons x xs =>
    rw [Tasks.walkList, bindError] at hw
    rcases hw with hw | ⟨hm, hx, hxs⟩
    · exact walkTask_error x h e hw
    · exact walkTasks_error xs hm e hxs
end

/-- Checking an instance hierarchy against its own root always throws the
cyclic-hierarchy error. -/
theorem ensureTasks_self_error (T : Task) :
    Task.ensureAllTasksDistinct (some T) (some T) =
      Except.error JsErr.cyclicHierarchy := by
  rw [Task.ensureAllTasksDistinct]
  cases hw : Task.walk T [] with
  | error e =>
    have he := walkTask_error T [] e hw
    subst he
    simp [hw, Bind.bind, Except.bind]
  | ok h =>
    have hmem := walkTask_mem T [] h hw
    cases T with
    | mk d dat subs slaves =>
      simp only [Task.data] at hmem
      simp [hw, Bind.bind, Except.bind, Task.walk, hmem]

/-- C6: in the configuration where the subtree being attached (node `n`, living
in the hierarchy rooted at `R`) contains the attach-point `p` as a descendant -
so that `n` would become an ancestor of itself - `getRootTaskDef` resolves both
the parent `p` and the proposed `n` to the same root `R`; the distinctness check
then fails with the cyclic-hierarchy error on any such hierarchy, the attach
(which only links after the check passes) is fully rejected with that error and
never produces a mutated hierarchy, and the instance-level check behaves
identically on instance trees. -/
theorem c6_cyclic_attach_rejected (R n p : TaskDefT) (nPath pPath : List Nat)
    (T nT : Task) (tPath : List Nat)
    (hn : TaskDefT.subtreeAt R nPath = some n)
    (hp : TaskDefT.subtreeAt n pPath = some p)
    (ht : Task.subtreeAt T tPath = some nT) :
    TaskDef.ensureAllTaskDefsDistinct (some R) (some R) =
        Except.error JsErr.cyclicHierarchy
    ∧ TaskDef.attachWithinHierarchy R (TaskDefT.defId p) n =
        Except.error JsErr.cyclicHierarchy
    ∧ Task.ensureAllTasksDistinct (some T) (some T) =
        Except.error JsErr.cyclicHierarchy := by
  refine ⟨ensureDefs_self_error R, ?_, ensureTasks_self_error T⟩
  rw [TaskDef.attachWithinHierarchy]
  simp [ensureDefs_self_error R, Bind.bind, Except.bind]

/-- C6, witness: the theorem applied to the concrete hierarchy `c6DefRoot`
(root "R" containing "N" containing "P", attaching "N" under "P") and to the
matching instance hierarchy `c6TaskRoot`. -/
theorem c6_cyclic_attach_rejected_witness :
    TaskDef.ensureAllTaskDefsDistinct (some c6DefRoot) (some c6DefRoot) =
        Except.error JsErr.cyclicHierarchy
    ∧ TaskDef.attachWithinHierarchy c6DefRoot 2
        (.mk 1 "N" true (.cons (.mk 2 "P" true .nil) .nil)) =
        Except.error JsErr.cyclicHierarchy :=
  ⟨(c6_cyclic_attach_rejected c6DefRoot
      (.mk 1 "N" true (.cons (.mk 2 "P" true .nil) .nil)) (.mk 2 "P" true .nil)
      [0] [0] c6TaskRoot c6TaskRoot [] rfl rfl rfl).1,
   (c6_cyclic_attach_rejected c6DefRoot
      (.mk 1 "N" true (.cons (.mk 2 "P" true .nil) .nil)) (.mk 2 "P" true .nil)
      [0] [0] c6TaskRoot c6TaskRoot [] rfl rfl rfl).2.1⟩

/-- C7: on a freshly created (Unstarted, zero-attempt, no-slave, unfrozen) task,
one `start()` call yields attempts 1 and totalAttempts 1, and a subsequent
`timeout(err, reverseAttempt)` on the started task reverts attempts to 0 while
totalAttempts remains 1. -/
theorem c7_attempt_bookkeeping (t : Task) (time : Int) (e : String)
    (hstate : Task.state t = .Unstarted) (hatt : (Task.data t).attempts = 0)
    (hinit : (Task.data t).initialAttempts = none)
    (htot : (Task.data t).totalAttempts = 0)
    (hended : (Task.data t).ended = none)
    (hfrozen : (Task.data t).frozen = false) (hslaves : Task.slaveTasks t = .nil) :
    ((Task.start time false t).map
        (fun (u : Task) => ((Task.data u).attempts, (Task.data u).totalAttempts))
      = Except.ok (1, 1))
    ∧ ((do
          let t1 ← Task.start time false t
          Task.timeout (some e) false false true false t1).map
            (fun (u : Task) => ((Task.data u).attempts, (Task.data u).totalAttempts))
        = Except.ok (0, 1)) := by
  cases t with
  | mk d dat subs slaves =>
    simp only [Task.state, Task.data, Task.slaveTasks]
      at hstate hatt hinit htot hended hfrozen hslaves
    subst hslaves
    constructor
    · simp [Task.start, beganAtData, hstate, hatt, htot, hended, hfrozen,
        TaskState.unstartedB, TaskState.incompleteB, TaskState.completedB,
        TaskState.rejectedB, Tasks.startList, Bind.bind, Except.bind, Except.map,
        Task.data]
    · simp [Task.start, beganAtData, Task.timeout, timeoutGuard, revertDataSelf,
        hstate, hatt, htot, hended, hfrozen,
        TaskState.unstartedB, TaskState.incompleteB, TaskState.completedB,
        TaskState.rejectedB, TaskState.timedOutB, TaskState.failedB,
        Tasks.startList, Tasks.timeoutList, Tasks.timeoutRevvedList,
        Bind.bind, Except.bind, Except.map, Task.data]

/-- C7, witness: the theorem applied to the concrete fresh leaf task `c7Fresh`. -/
theorem c7_attempt_bookkeeping_witness :
    ((Task.start 5 false c7Fresh).map
        (fun (u : Task) => ((Task.data u).attempts, (Task.data u).totalAttempts))
      = Except.ok (1, 1))
    ∧ ((do
          let t1 ← Task.start 5 false c7Fresh
          Task.timeout (some "late") false false true false t1).map
            (fun (u : Task) => ((Task.data u).attempts, (Task.data u).totalAttempts))
        = Except.ok (0, 1)) :=
  c7_attempt_bookkeeping c7Fresh 5 "late" rfl rfl rfl rfl rfl rfl rfl

mutual
/-- On an unfrozen tree, `fail` with an error supplied never throws. -/
theorem fail_ok (e : String) (rec : Bool) (t : Task) (h : unfrozenTreeB t = true) :
    ∃ t', Task.fail (some e) rec t = Except.ok t' := by
  cases t with
  | mk d dat subs slaves =>
    rw [unfrozenTreeB] at h
    simp only [Bool.and_eq_true, Bool.not_eq_true'] at h
    obtain ⟨⟨hf, hsubs⟩, hslaves⟩ := h
    obtain ⟨sl, hsl⟩ := failList_ok e rec slaves hslaves
    rw [Task.fail]
    cases rec with
    | false =>
      by_cases hg : (!dat.state.timedOutB && !dat.state.rejectedB && !dat.state.failedB) = true
      · simp [hsl, hg, hf, Bind.bind, Except.bind]
      · simp [hsl, hg, Bind.bind, Except.bind]
    | true =>
      obtain ⟨sc, hsc⟩ := failList_ok e true subs hsubs
      by_cases hg : (!dat.state.timedOutB && !dat.state.rejectedB && !dat.state.failedB) = true
      · simp [hsc, hsl, hg, hf, Bind.bind, Except.bind]
      · simp [hsc, hsl, hg, Bind.bind, Except.bind]
theorem failList_ok (e : String) (rec : Bool) (ts : Tasks)
    (h : unfrozenTreeListB ts = true) :
    ∃ ts', Tasks.failList (some e) rec ts = Except.ok ts' := by
  cases ts with
  | nil => exact ⟨.nil, rfl⟩
  | cons x xs =>
    rw [unfrozenTreeListB, Bool.and_eq_true] at h
    obtain ⟨x', hx⟩ := fail_ok e rec x h.1
    obtain ⟨xs', hxs⟩ := failList_ok e rec xs h.2
    rw [Tasks.failList]
    simp [hx, hxs, Bind.bind, Except.bind]
end

mutual
/-- On an unfrozen tree, `failAs` with an error supplied never throws. -/
theorem failAs_ok (sn e : String) (rec : Bool) (t : Task) (h : unfrozenTreeB t = true) :
    ∃ t', Task.failAs sn (some e) rec t = Except.ok t' := by
  cases t with
  | mk d dat subs slaves =>
    rw [unfrozenTreeB] at h
    simp only [Bool.and_eq_true, Bool.not_eq_true'] at h
    obtain ⟨⟨hf, hsubs⟩, hslaves⟩ := h
    obtain ⟨sl, hsl⟩ := failAsList_ok sn e rec slaves hslaves
    rw [Task.failAs]
    cases rec with
    | false =>
      by_cases hg : (!dat.state.timedOutB && !dat.state.rejectedB && !dat.state.failedB) = true
      · simp [hsl, hg, hf, Bind.bind, Except.bind]
      · simp [hsl, hg, Bind.bind, Except.bind]
    | true =>
      obtain ⟨sc, hsc⟩ := failAsList_ok sn e true subs hsubs
      by_cases hg : (!dat.state.timedOutB && !dat.state.rejectedB && !dat.state.failedB) = true
      · simp [hsc, hsl, hg, hf, Bind.bind, Except.bind]
      · simp [hsc, hsl, hg, Bind.bind, Except.bind]
theorem failAsList_ok (sn e : String) (rec : Bool) (ts : Tasks)
    (h : unfrozenTreeListB ts = true) :
    ∃ ts', Tasks.failAsList sn (some e) rec ts = Except.ok ts' := by
  cases ts with
  | nil => exact ⟨.nil, rfl⟩
  | cons x xs =>
    rw [unfrozenTreeListB, Bool.and_eq_true] at h
    obtain ⟨x', hx⟩ := failAs_ok sn e rec x h.1
    obtain ⟨xs', hxs⟩ := failAsList_ok sn e rec xs h.2
    rw [Tasks.failAsList]
    simp [hx, hxs, Bind.bind, Except.bind]
end

/-- C8: `fail` and `failAs` throw the missing-error error exactly when the error
argument is absent - the throw happens before any state change, and with an
error supplied (on an unfrozen tree) the call never throws; when the task is not
already timed out, rejected or failed, it transitions to a failed state carrying
that error, with the result cleared (a completed state passes this guard, so it
may be overridden). -/
theorem c8_fail_missing_error_policy (t : Task) (e sn : String) (rec : Bool) :
    (Task.fail none rec t = Except.error JsErr.missingError)
    ∧ (Task.failAs sn none rec t = Except.error JsErr.missingError)
    ∧ (unfrozenTreeB t = true →
        ∃ t', Task.fail (some e) rec t = Except.ok t' ∧
          ((Task.state t).timedOutB = false → (Task.state t).rejectedB = false →
            (Task.state t).failedB = false →
            Task.state t' = .Failed e ∧ (Task.data t').result = none ∧
              (Task.data t').error = some e))
    ∧ (unfrozenTreeB t = true →
        ∃ t', Task.failAs sn (some e) rec t = Except.ok t' ∧
          ((Task.state t).timedOutB = false → (Task.state t).rejectedB = false →
            (Task.state t).failedB = false →
            (Task.state t').failedB = true ∧
              Task.state t' = (if sn = "Failed" then .Failed e else .FailedAs sn e) ∧
              (Task.data t').result = none ∧ (Task.data t').error = some e)) := by
  refine ⟨?_, ?_, ?_, ?_⟩
  · cases t with
    | mk d dat subs slaves => rfl
  · cases t with
    | mk d dat subs slaves => rfl
  · intro hu
    cases t with
    | mk d dat subs slaves =>
      rw [unfrozenTreeB] at hu
      simp only [Bool.and_eq_true, Bool.not_eq_true'] at hu
      obtain ⟨⟨hf, hsubs⟩, hslaves⟩ := hu
      obtain ⟨sl, hsl⟩ := failList_ok e rec slaves hslaves
      simp only [Task.state, Task.data]
      rw [Task.fail]
      by_cases hg : (!dat.state.timedOutB && !dat.state.rejectedB && !dat.state.failedB) = true
      · cases rec with
        | false =>
          simp [hsl, hg, hf, Bind.bind, Except.bind, Task.state, Task.data]
        | true =>
          obtain ⟨sc, hsc⟩ := failList_ok e true subs hsubs
          simp [hsc, hsl, hg, hf, Bind.bind, Except.bind, Task.state, Task.data]
      · cases rec with
        | false =>
          simp only [hg, Bool.false_eq_true, if_false]
          simp only [hsl, Bind.bind, Except.bind]
          refine ⟨_, rfl, ?_⟩
          intro h1 h2 h3
          exact absurd (by simp [h1, h2, h3]) hg
        | true =>
          obtain ⟨sc, hsc⟩ := failList_ok e true subs hsubs
          simp only [hg, Bool.false_eq_true, if_false]
          simp only [hsc, hsl, Bind.bind, Except.bind]
          refine ⟨_, rfl, ?_⟩
          intro h1 h2 h3
          exact absurd (by simp [h1, h2, h3]) hg
  · intro hu
    cases t with
    | mk d dat subs slaves =>
      rw [unfrozenTreeB] at hu
      simp only [Bool.and_eq_true, Bool.not_eq_true'] at hu
      obtain ⟨⟨hf, hsubs⟩, hslaves⟩ := hu
      obtain ⟨sl, hsl⟩ := failAsList_ok sn e rec slaves hslaves
      simp only [Task.state, Task.data]
      rw [Task.failAs]
      by_cases hg : (!dat.state.timedOutB && !dat.state.rejectedB && !dat.state.failedB) = true
      · have hfb : (if sn = "Failed" then TaskState.Failed e
            else TaskState.FailedAs sn e).failedB = true := by
          by_cases hsn : sn = "Failed" <;> simp [hsn, TaskState.failedB]
        cases rec with
        | false =>
          simp [hsl, hg, hf, Bind.bind, Except.bind, Task.state, Task.data, hfb]
        | true =>
          obtain ⟨sc, hsc⟩ := failAsList_ok sn e true subs hsubs
          simp [hsc, hsl, hg, hf, Bind.bind, Except.bind, Task.state, Task.data, hfb]
      · cases rec with
        | false =>
          simp only [hg, Bool.false_eq_true, if_false]
          simp only [hsl, Bind.bind, Except.bind]
          refine ⟨_, rfl, ?_⟩
          intro h1 h2 h3
          exact absurd (by simp [h1, h2, h3]) hg
        | true =>
          obtain ⟨sc, hsc⟩ := failAsList_ok sn e true subs hsubs
          simp only [hg, Bool.false_eq_true, if_false]
          simp only [hsc, hsl, Bind.bind, Except.bind]
          refine ⟨_, rfl, ?_⟩
          intro h1 h2 h3
          exact absurd (by simp [h1, h2, h3]) hg

/-- C8, witness: the theorem applied to a previously Completed leaf instance -
`fail(none)` throws the missing-error error, and `fail("boom")` overrides the
completed state with `Failed "boom"`. -/
theorem c8_fail_missing_error_policy_witness :
    (Task.fail none false c2OldCompleted = Except.error JsErr.missingError)
    ∧ (∃ t', Task.fail (some "boom") false c2OldCompleted = Except.ok t' ∧
        Task.state t' = .Failed "boom" ∧ (Task.data t').result = none ∧
          (Task.data t').error = some "boom") := by
  have h := c8_fail_missing_error_policy c2OldCompleted "boom" "X" false
  refine ⟨h.1, ?_⟩
  obtain ⟨t', ht, hfacts⟩ := h.2.2.1 rfl
  exact ⟨t', ht, hfacts rfl rfl rfl⟩

mutual
/-- A successful `complete` preserves the result/error invariant. -/
theorem complete_inv (r : Option String) (ov rec : Bool) (t t' : Task)
    (hok : Task.complete r ov rec t = Except.ok t') (hinv : invTreeB t = true) :
    invTreeB t' = true := by
  cases t with
  | mk d dat subs slaves =>
    rw [invTreeB] at hinv
    simp only [Bool.and_eq_true] at hinv
    obtain ⟨⟨hnode, hsubs⟩, hslaves⟩ := hinv
    rw [Task.complete] at hok
    cases hslv : Tasks.completeList r ov rec slaves with
    | error e =>
      cases rec with
      | false =>
        simp [hslv, Bind.bind, Except.bind] at hok
        split_ifs at hok <;> simp at hok
      | true =>
        cases hsub : Tasks.completeList r ov true subs with
        | error e2 =>
          simp [hsub, hslv, Bind.bind, Except.bind] at hok
          split_ifs at hok <;> simp at hok
        | ok subs' =>
          simp [hsub, hslv, Bind.bind, Except.bind] at hok
          split_ifs at hok <;> simp at hok
    | ok slaves' =>
      have hslvInv := completeList_inv r ov rec slaves slaves' hslv hslaves
      cases rec with
      | false =>
        simp [hslv, Bind.bind, Except.bind] at hok
        split_ifs at hok with h1
        · simp only [Except.ok.injEq] at hok
          subst hok
          rw [invTreeB]
          simp [nodeInvB, TaskState.completedB, hsubs, hslvInv]
        · simp only [Except.ok.injEq] at hok
          subst hok
          rw [invTreeB]
          simp [hnode, hsubs, hslvInv]
      | true =>
        cases hsub : Tasks.completeList r ov true subs with
        | error e2 =>
          simp [hsub, hslv, Bind.bind, Except.bind] at hok
          split_ifs at hok <;> simp at hok
        | ok subs' =>
          have hsubInv := completeList_inv r ov true subs subs' hsub hsubs
          simp [hsub, hslv, Bind.bind, Except.bind] at hok
          split_ifs at hok with h1
          · simp only [Except.ok.injEq] at hok
            subst hok
            rw [invTreeB]
            simp [nodeInvB, TaskState.completedB, hsubInv, hslvInv]
          · simp only [Except.ok.injEq] at hok
            subst hok
            rw [invTreeB]
            simp [hnode, hsubInv, hslvInv]
theorem completeList_inv (r : Option String) (ov rec : Bool) (ts ts' : Tasks)
    (hok : Tasks.completeList r ov rec ts = Except.ok ts') (hinv : invTreeListB ts = true) :
    invTreeListB ts' = true := by
  cases ts with
  | nil =>
    rw [Tasks.completeList] at hok
    cases hok
    rfl
  | cons x xs =>
    rw [invTreeListB, Bool.and_eq_true] at hinv
    rw [Tasks.completeList, bindOk] at hok
    obtain ⟨x', hx, hok⟩ := hok
    rw [bindOk] at hok
    obtain ⟨xs', hxs, hok⟩ := hok
    cases hok
    rw [invTreeListB]
    simp [complete_inv r ov rec x x' hx hinv.1, completeList_inv r ov rec xs xs' hxs hinv.2]
end

mutual
/-- A successful `succeed` preserves the result/error invariant. -/
theorem succeed_inv (r : Option String) (ov rec : Bool) (t t' : Task)
    (hok : Task.succeed r ov rec t = Except.ok t') (hinv : invTreeB t = true) :
    invTreeB t' = true := by
  cases t with
  | mk d dat subs slaves =>
    rw [invTreeB] at hinv
    simp only [Bool.and_eq_true] at hinv
    obtain ⟨⟨hnode, hsubs⟩, hslaves⟩ := hinv
    rw [Task.succeed] at hok
    cases hslv : Tasks.succeedList r ov rec slaves with
    | error e =>
      cases rec with
      | false =>
        simp [hslv, Bind.bind, Except.bind] at hok
        split_ifs at hok <;> simp at hok
      | true =>
        cases hsub : Tasks.succeedList r ov true subs with
        | error e2 =>
          simp [hsub, hslv, Bind.bind, Except.bind] at hok
          split_ifs at hok <;> simp at hok
        | ok subs' =>
          simp [hsub, hslv, Bind.bind, Except.bind] at hok
          split_ifs at hok <;> simp at hok
    | ok slaves' =>
      have hslvInv := succeedList_inv r ov rec slaves slaves' hslv hslaves
      cases rec with
      | false =>
        simp [hslv, Bind.bind, Except.bind] at hok
        split_ifs at hok with h1
        · simp only [Except.ok.injEq] at hok
          subst hok
          rw [invTreeB]
          simp [nodeInvB, TaskState.completedB, hsubs, hslvInv]
        · simp only [Except.ok.injEq] at hok
          subst hok
          rw [invTreeB]
          simp [hnode, hsubs, hslvInv]
      | true =>
        cases hsub : Tasks.succeedList r ov true subs with
        | error e2 =>
          simp [hsub, hslv, Bind.bind, Except.bind] at hok
          split_ifs at hok <;> simp at hok
        | ok subs' =>
          have hsubInv := succeedList_inv r ov true subs subs' hsub hsubs
          simp [hsub, hslv, Bind.bind, Except.bind] at hok
          split_ifs at hok with h1
          · simp only [Except.ok.injEq] at hok
            subst hok
            rw [invTreeB]
            simp [nodeInvB, TaskState.completedB, hsubInv, hslvInv]
          · simp only [Except.ok.injEq] at hok
            subst hok
            rw [invTreeB]
            simp [hnode, hsubInv, hslvInv]
theorem succeedList_inv (r : Option String) (ov rec : Bool) (ts ts' : Tasks)
    (hok : Tasks.succeedList r ov rec ts = Except.ok ts') (hinv : invTreeListB ts = true) :
    invTreeListB ts' = true := by
  cases ts with
  | nil =>
    rw [Tasks.succeedList] at hok
    cases hok
    rfl
  | cons x xs =>
    rw [invTreeListB, Bool.and_eq_true] at hinv
    rw [Tasks.succeedList, bindOk] at hok
    obtain ⟨x', hx, hok⟩ := hok
    rw [bindOk] at hok
    obtain ⟨xs', hxs, hok⟩ := hok
    cases hok
    rw [invTreeListB]
    simp [succeed_inv r ov rec x x' hx hinv.1, succeedList_inv r ov rec xs xs' hxs hinv.2]
end

/-- Reverting own attempts never touches state, result or error, so it preserves
the per-node result/error invariant. -/
theorem revertDataSelf_inv (dat dat' : TaskData)
    (hok : revertDataSelf dat = Except.ok dat') (hnode : nodeInvB dat = true) :
    nodeInvB dat' = true := by
  rw [revertDataSelf] at hok
  cases hia : dat.initialAttempts with
  | none =>
    simp [hia] at hok
    subst hok
    exact hnode
  | some ia =>
    simp [hia] at hok
    first
    | (split_ifs at hok <;>
        first
        | simp only [reduceCtorEq] at hok
        | (simp only [Except.ok.injEq] at hok
           subst hok
           simpa [nodeInvB] using hnode)
        | (subst hok
           simpa [nodeInvB] using hnode))
    | (obtain ⟨hf, hok⟩ := hok
       subst hok
       simpa [nodeInvB] using hnode)
    | (subst hok
       simpa [nodeInvB] using hnode)

set_option maxHeartbeats 1000000

mutual
/-- A successful `timeout` preserves the result/error invariant. -/
theorem timeout_inv (er : Option String) (oc ou ra rec : Bool) (t t' : Task)
    (hok : Task.timeout er oc ou ra rec t = Except.ok t') (hinv : invTreeB t = true) :
    invTreeB t' = true := by
  cases t with
  | mk d dat subs slaves =>
    rw [invTreeB] at hinv
    simp only [Bool.and_eq_true] at hinv
    obtain ⟨⟨hnode, hsubs⟩, hslaves⟩ := hinv
    rw [Task.timeout] at hok
    rcases hrd : revertDataSelf dat with e0 | dat1 <;>
      rcases hsb : Tasks.timeoutList er oc ou ra rec subs with e1 | subs1 <;>
        rcases hsl : Tasks.timeoutList er oc ou ra rec slaves with e2 | slaves1 <;>
          rcases hsr : Tasks.timeoutRevvedList er oc ou ra rec slaves with e3 | slaves2
    all_goals
      first
      | have hn1 : nodeInvB dat1 = true := revertDataSelf_inv dat dat1 hrd hnode
      | have hn1 : True := trivial
    all_goals
      first
      | have hs1 : invTreeListB subs1 = true :=
          timeoutList_inv er oc ou ra rec subs subs1 hsb hsubs
      | have hs1 : True := trivial
    all_goals
      first
      | have hs2 : invTreeListB slaves1 = true :=
          timeoutList_inv er oc ou ra rec slaves slaves1 hsl hslaves
      | have hs2 : True := trivial
    all_goals
      first
      | have hs3 : invTreeListB slaves2 = true :=
          timeoutRevvedList_inv er oc ou ra rec slaves slaves2 hsr hslaves
      | have hs3 : True := trivial
    all_goals simp [hrd, hsb, hsl, hsr, Bind.bind, Except.bind] at hok
    all_goals
      first
      | (split_ifs at hok <;>
          first
          | exact hok.elim
          | simp only [reduceCtorEq] at hok
          | ((try simp only [Except.ok.injEq] at hok)
             subst hok
             rw [invTreeB]
             simp only [Bool.and_eq_true]
             refine ⟨⟨?_, ?_⟩, ?_⟩ <;>
               first
               | exact hnode
               | exact hn1
               | exact hn2
               | exact hs1
               | exact hs2
               | exact hs3
               | exact hsubs
               | exact hslaves
               | simp [nodeInvB, TaskState.timedOutB]))
      | exact hok.elim
      | simp only [reduceCtorEq] at hok
      | ((try simp only [Except.ok.injEq] at hok)
         subst hok
         rw [invTreeB]
         simp only [Bool.and_eq_true]
         refine ⟨⟨?_, ?_⟩, ?_⟩ <;>
           first
           | exact hnode
           | exact hn1
           | exact hn2
           | exact hs1
           | exact hs2
           | exact hs3
           | exact hsubs
           | exact hslaves
           | simp [nodeInvB, TaskState.timedOutB])
/-- A successful revert-then-timeout preserves the result/error invariant. -/
theorem timeoutRevved_inv (er : Option String) (oc ou ra rec : Bool) (t t' : Task)
    (hok : Task.timeoutRevved er oc ou ra rec t = Except.ok t') (hinv : invTreeB t = true) :
    invTreeB t' = true := by
  cases t with
  | mk d dat subs slaves =>
    rw [invTreeB] at hinv
    simp only [Bool.and_eq_true] at hinv
    obtain ⟨⟨hnode, hsubs⟩, hslaves⟩ := hinv
    rw [Task.timeoutRevved] at hok
    rcases hrd : revertDataSelf dat with e0 | dat1
    · simp [hrd, Bind.bind, Except.bind] at hok
    · have hn1 : nodeInvB dat1 = true := revertDataSelf_inv dat dat1 hrd hnode
      rcases hrd2 : revertDataSelf dat1 with e9 | dat2 <;>
        rcases hsb : Tasks.timeoutList er oc ou ra rec subs with e1 | subs1 <;>
          rcases hsr : Tasks.timeoutRevvedList er oc ou ra rec slaves with e3 | slaves2
      all_goals
        first
        | have hn2 : nodeInvB dat2 = true := revertDataSelf_inv dat1 dat2 hrd2 hn1
        | have hn2 : True := trivial
      all_goals
        first
        | have hs1 : invTreeListB subs1 = true :=
            timeoutList_inv er oc ou ra rec subs subs1 hsb hsubs
        | have hs1 : True := trivial
      all_goals
        first
        | have hs3 : invTreeListB slaves2 = true :=
            timeoutRevvedList_inv er oc ou ra rec slaves slaves2 hsr hslaves
        | have hs3 : True := trivial
      all_goals simp [hrd, hrd2, hsb, hsr, Bind.bind, Except.bind] at hok
      all_goals
        first
        | (split_ifs at hok <;>
            first
            | exact hok.elim
            | simp only [reduceCtorEq] at hok
            | ((try simp only [Except.ok.injEq] at hok)
               subst hok
               rw [invTreeB]
               simp only [Bool.and_eq_true]
               refine ⟨⟨?_, ?_⟩, ?_⟩ <;>
                 first
                 | exact hnode
                 | exact hn1
                 | exact hn2
                 | exact hs1
                 | exact hs2
                 | exact hs3
                 | exact hsubs
                 | exact hslaves
                 | simp [nodeInvB, TaskState.timedOutB]))
        | exact hok.elim
        | simp only [reduceCtorEq] at hok
        | ((try simp only [Except.ok.injEq] at hok)
           subst hok
           rw [invTreeB]
           simp only [Bool.and_eq_true]
           refine ⟨⟨?_, ?_⟩, ?_⟩ <;>
             first
             | exact hnode
             | exact hn1
             | exact hn2
             | exact hs1
             | exact hs2
             | exact hs3
             | exact hsubs
             | exact hslaves
             | simp [nodeInvB, TaskState.timedOutB])
/-- A successful list timeout preserves the result/error invariant throughout. -/
theorem timeoutList_inv (er : Option String) (oc ou ra rec : Bool) (ts ts' : Tasks)
    (hok : Tasks.timeoutList er oc ou ra rec ts = Except.ok ts') (hinv : invTreeListB ts = true) :
    invTreeListB ts' = true := by
  cases ts with
  | nil =>
    rw [Tasks.timeoutList] at hok
    cases hok
    rfl
  | cons x xs =>
    rw [invTreeListB, Bool.and_eq_true] at hinv
    rw [Tasks.timeoutList, bindOk] at hok
    obtain ⟨x', hx, hok⟩ := hok
    rw [bindOk] at hok
    obtain ⟨xs', hxs, hok⟩ := hok
    cases hok
    rw [invTreeListB]
    simp [timeout_inv er oc ou ra rec x x' hx hinv.1,
      timeoutList_inv er oc ou ra rec xs xs' hxs hinv.2]
/-- A successful list revert-then-timeout preserves the result/error invariant. -/
theorem timeoutRevvedList_inv (er : Option String) (oc ou ra rec : Bool) (ts ts' : Tasks)
    (hok : Tasks.timeoutRevvedList er oc ou ra rec ts = Except.ok ts')
    (hinv : invTreeListB ts = true) : invTreeListB ts' = true := by
  cases ts with
  | nil =>
    rw [Tasks.timeoutRevvedList] at hok
    cases hok
    rfl
  | cons x xs =>
    rw [invTreeListB, Bool.and_eq_true] at hinv
    rw [Tasks.timeoutRevvedList, bindOk] at hok
    obtain ⟨x', hx, hok⟩ := hok
    rw [bindOk] at hok
    obtain ⟨xs', hxs, hok⟩ := hok
    cases hok
    rw [invTreeListB]
    simp [timeoutRevved_inv er oc ou ra rec x x' hx hinv.1,
      timeoutRevvedList_inv er oc ou ra rec xs xs' hxs hinv.2]
end

mutual
/-- A successful `fail` preserves the result/error invariant. -/
theorem fail_inv (er : Option String) (rec : Bool) (t t' : Task)
    (hok : Task.fail er rec t = Except.ok t') (hinv : invTreeB t = true) :
    invTreeB t' = true := by
  cases t with
  | mk d dat subs slaves =>
    rw [invTreeB] at hinv
    simp only [Bool.and_eq_true] at hinv
    obtain ⟨⟨hnode, hsubs⟩, hslaves⟩ := hinv
    cases er with
    | none =>
      rw [Task.fail] at hok
      simp at hok
    | some e =>
      rw [Task.fail] at hok
      rcases hsb : Tasks.failList (some e) rec subs with e1 | subs1 <;>
        rcases hsl : Tasks.failList (some e) rec slaves with e2 | slaves1
      all_goals
        first
        | have hs1 : invTreeListB subs1 = true :=
            failList_inv (some e) rec subs subs1 hsb hsubs
        | have hs1 : True := trivial
      all_goals
        first
        | have hs2 : invTreeListB slaves1 = true :=
            failList_inv (some e) rec slaves slaves1 hsl hslaves
        | have hs2 : True := trivial
      all_goals simp [hsb, hsl, Bind.bind, Except.bind] at hok
      all_goals
        first
        | (split_ifs at hok <;>
            first
            | exact hok.elim
            | simp only [reduceCtorEq] at hok
            | ((try simp only [Except.ok.injEq] at hok)
               subst hok
               rw [invTreeB]
               simp only [Bool.and_eq_true]
               refine ⟨⟨?_, ?_⟩, ?_⟩ <;>
                 first
                 | exact hnode
                 | exact hs1
                 | exact hs2
                 | exact hsubs
                 | exact hslaves
                 | simp [nodeInvB, TaskState.failedB]))
        | exact hok.elim
        | simp only [reduceCtorEq] at hok
        | ((try simp only [Except.ok.injEq] at hok)
           subst hok
           rw [invTreeB]
           simp only [Bool.and_eq_true]
           refine ⟨⟨?_, ?_⟩, ?_⟩ <;>
             first
             | exact hnode
             | exact hs1
             | exact hs2
             | exact hsubs
             | exact hslaves
             | simp [nodeInvB, TaskState.failedB])
/-- A successful list fail preserves the result/error invariant throughout. -/
theorem failList_inv (er : Option String) (rec : Bool) (ts ts' : Tasks)
    (hok : Tasks.failList er rec ts = Except.ok ts') (hinv : invTreeListB ts = true) :
    invTreeListB ts' = true := by
  cases ts with
  | nil =>
    rw [Tasks.failList] at hok
    cases hok
    rfl
  | cons x xs =>
    rw [invTreeListB, Bool.and_eq_true] at hinv
    rw [Tasks.failList, bindOk] at hok
    obtain ⟨x', hx, hok⟩ := hok
    rw [bindOk] at hok
    obtain ⟨xs', hxs, hok⟩ := hok
    cases hok
    rw [invTreeListB]
    simp [fail_inv er rec x x' hx hinv.1, failList_inv er rec xs xs' hxs hinv.2]
end

mutual
/-- A successful `reject` preserves the result/error invariant. -/
theorem reject_inv (reason : String) (er : Option String) (rec : Bool) (t t' : Task) (n : Nat)
    (hok : Task.reject reason er rec t = Except.ok (t', n)) (hinv : invTreeB t = true) :
    invTreeB t' = true := by
  cases t with
  | mk d dat subs slaves =>
    rw [invTreeB] at hinv
    simp only [Bool.and_eq_true] at hinv
    obtain ⟨⟨hnode, hsubs⟩, hslaves⟩ := hinv
    rw [Task.reject] at hok
    rcases hsb : Tasks.rejectList reason er rec subs with e1 | sc <;>
      rcases hsl : Tasks.rejectList reason er rec slaves with e2 | sl
    all_goals
      first
      | have hs1 : invTreeListB sc.1 = true :=
          rejectList_inv reason er rec subs sc.1 sc.2 (by rw [hsb]) hsubs
      | have hs1 : True := trivial
    all_goals
      first
      | have hs2 : invTreeListB sl.1 = true :=
          rejectList_inv reason er rec slaves sl.1 sl.2 (by rw [hsl]) hslaves
      | have hs2 : True := trivial
    all_goals simp [hsb, hsl, Bind.bind, Except.bind] at hok
    all_goals
      first
      | (split_ifs at hok <;>
          first
          | exact hok.elim
          | simp only [reduceCtorEq] at hok
          | ((try simp only [Except.ok.injEq, Prod.mk.injEq] at hok)
             obtain ⟨hok1, hok2⟩ := hok
             subst hok1
             rw [invTreeB]
             simp only [Bool.and_eq_true]
             refine ⟨⟨?_, ?_⟩, ?_⟩ <;>
               first
               | exact hnode
               | exact hs1
               | exact hs2
               | exact hsubs
               | exact hslaves
               | simp [nodeInvB, TaskState.rejectedB]))
      | exact hok.elim
      | simp only [reduceCtorEq] at hok
      | ((try simp only [Except.ok.injEq, Prod.mk.injEq] at hok)
         obtain ⟨hok1, hok2⟩ := hok
         subst hok1
         rw [invTreeB]
         simp only [Bool.and_eq_true]
         refine ⟨⟨?_, ?_⟩, ?_⟩ <;>
           first
           | exact hnode
           | exact hs1
           | exact hs2
           | exact hsubs
           | exact hslaves
           | simp [nodeInvB, TaskState.rejectedB])
/-- A successful list reject preserves the result/error invariant throughout. -/
theorem rejectList_inv (reason : String) (er : Option String) (rec : Bool) (ts : Tasks)
    (ts' : Tasks) (n : Nat) (hok : Tasks.rejectList reason er rec ts = Except.ok (ts', n))
    (hinv : invTreeListB ts = true) : invTreeListB ts' = true := by
  cases ts with
  | nil =>
    rw [Tasks.rejectList] at hok
    simp at hok
    rw [← hok.1]
    rfl
  | cons x xs =>
    rw [invTreeListB, Bool.and_eq_true] at hinv
    rw [Tasks.rejectList, bindOk] at hok
    obtain ⟨xc, hx, hok⟩ := hok
    rw [bindOk] at hok
    obtain ⟨xsc, hxs, hok⟩ := hok
    simp only [Except.ok.injEq, Prod.mk.injEq] at hok
    rw [← hok.1, invTreeListB]
    simp [reject_inv reason er rec x xc.1 xc.2 (by rw [hx]) hinv.1,
      rejectList_inv reason er rec xs xsc.1 xsc.2 (by rw [hxs]) hinv.2]
end

mutual
/-- A successful `discard` preserves the result/error invariant. -/
theorem discard_inv (reason : String) (er : Option String) (rec : Bool) (t t' : Task) (n : Nat)
    (hok : Task.discard reason er rec t = Except.ok (t', n)) (hinv : invTreeB t = true) :
    invTreeB t' = true := by
  cases t with
  | mk d dat subs slaves =>
    rw [invTreeB] at hinv
    simp only [Bool.and_eq_true] at hinv
    obtain ⟨⟨hnode, hsubs⟩, hslaves⟩ := hinv
    rw [Task.discard] at hok
    rcases hsb : Tasks.discardList reason er rec subs with e1 | sc <;>
      rcases hsl : Tasks.discardList reason er rec slaves with e2 | sl
    all_goals
      first
      | have hs1 : invTreeListB sc.1 = true :=
          discardList_inv reason er rec subs sc.1 sc.2 (by rw [hsb]) hsubs
      | have hs1 : True := trivial
    all_goals
      first
      | have hs2 : invTreeListB sl.1 = true :=
          discardList_inv reason er rec slaves sl.1 sl.2 (by rw [hsl]) hslaves
      | have hs2 : True := trivial
    all_goals simp [hsb, hsl, Bind.bind, Except.bind] at hok
    all_goals
      first
      | (split_ifs at hok <;>
          first
          | exact hok.elim
          | simp only [reduceCtorEq] at hok
          | ((try simp only [Except.ok.injEq, Prod.mk.injEq] at hok)
             obtain ⟨hok1, hok2⟩ := hok
             subst hok1
             rw [invTreeB]
             simp only [Bool.and_eq_true]
             refine ⟨⟨?_, ?_⟩, ?_⟩ <;>
               first
               | exact hnode
               | exact hs1
               | exact hs2
               | exact hsubs
               | exact hslaves
               | simp [nodeInvB, TaskState.rejectedB]))
      | exact hok.elim
      | simp only [reduceCtorEq] at hok
      | ((try simp only [Except.ok.injEq, Prod.mk.injEq] at hok)
         obtain ⟨hok1, hok2⟩ := hok
         subst hok1
         rw [invTreeB]
         simp only [Bool.and_eq_true]
         refine ⟨⟨?_, ?_⟩, ?_⟩ <;>
           first
           | exact hnode
           | exact hs1
           | exact hs2
           | exact hsubs
           | exact hslaves
           | simp [nodeInvB, TaskState.rejectedB])
/-- A successful list discard preserves the result/error invariant throughout. -/
theorem discardList_inv (reason : String) (er : Option String) (rec : Bool) (ts : Tasks)
    (ts' : Tasks) (n : Nat) (hok : Tasks.discardList reason er rec ts = Except.ok (ts', n))
    (hinv : invTreeListB ts = true) : invTreeListB ts' = true := by
  cases ts with
  | nil =>
    rw [Tasks.discardList] at hok
    simp at hok
    rw [← hok.1]
    rfl
  | cons x xs =>
    rw [invTreeListB, Bool.and_eq_true] at hinv
    rw [Tasks.discardList, bindOk] at hok
    obtain ⟨xc, hx, hok⟩ := hok
    rw [bindOk] at hok
    obtain ⟨xsc, hxs, hok⟩ := hok
    simp only [Except.ok.injEq, Prod.mk.injEq] at hok
    rw [← hok.1, invTreeListB]
    simp [discard_inv reason er rec x xc.1 xc.2 (by rw [hx]) hinv.1,
      discardList_inv reason er rec xs xsc.1 xsc.2 (by rw [hxs]) hinv.2]
end

mutual
/-- A successful `abandon` preserves the result/error invariant. -/
theorem abandon_inv (reason : String) (er : Option String) (rec : Bool) (t t' : Task) (n : Nat)
    (hok : Task.abandon reason er rec t = Except.ok (t', n)) (hinv : invTreeB t = true) :
    invTreeB t' = true := by
  cases t with
  | mk d dat subs slaves =>
    rw [invTreeB] at hinv
    simp only [Bool.and_eq_true] at hinv
    obtain ⟨⟨hnode, hsubs⟩, hslaves⟩ := hinv
    rw [Task.abandon] at hok
    rcases hsb : Tasks.abandonList reason er rec subs with e1 | sc <;>
      rcases hsl : Tasks.abandonList reason er rec slaves with e2 | sl
    all_goals
      first
      | have hs1 : invTreeListB sc.1 = true :=
          abandonList_inv reason er rec subs sc.1 sc.2 (by rw [hsb]) hsubs
      | have hs1 : True := trivial
    all_goals
      first
      | have hs2 : invTreeListB sl.1 = true :=
          abandonList_inv reason er rec slaves sl.1 sl.2 (by rw [hsl]) hslaves
      | have hs2 : True := trivial
    all_goals simp [hsb, hsl, Bind.bind, Except.bind] at hok
    all_goals
      first
      | (split_ifs at hok <;>
          first
          | exact hok.elim
          | simp only [reduceCtorEq] at hok
          | ((try simp only [Except.ok.injEq, Prod.mk.injEq] at hok)
             obtain ⟨hok1, hok2⟩ := hok
             subst hok1
             rw [invTreeB]
             simp only [Bool.and_eq_true]
             refine ⟨⟨?_, ?_⟩, ?_⟩ <;>
               first
               | exact hnode
               | exact hs1
               | exact hs2
               | exact hsubs
               | exact hslaves
               | simp [nodeInvB, TaskState.rejectedB]))
      | exact hok.elim
      | simp only [reduceCtorEq] at hok
      | ((try simp only [Except.ok.injEq, Prod.mk.injEq] at hok)
         obtain ⟨hok1, hok2⟩ := hok
         subst hok1
         rw [invTreeB]
         simp only [Bool.and_eq_true]
         refine ⟨⟨?_, ?_⟩, ?_⟩ <;>
           first
           | exact hnode
           | exact hs1
           | exact hs2
           | exact hsubs
           | exact hslaves
           | simp [nodeInvB, TaskState.rejectedB])
/-- A successful list abandon preserves the result/error invariant throughout. -/
theorem abandonList_inv (reason : String) (er : Option String) (rec : Bool) (ts : Tasks)
    (ts' : Tasks) (n : Nat) (hok : Tasks.abandonList reason er rec ts = Except.ok (ts', n))
    (hinv : invTreeListB ts = true) : invTreeListB ts' = true := by
  cases ts with
  | nil =>
    rw [Tasks.abandonList] at hok
    simp at hok
    rw [← hok.1]
    rfl
  | cons x xs =>
    rw [invTreeListB, Bool.and_eq_true] at hinv
    rw [Tasks.abandonList, bindOk] at hok
    obtain ⟨xc, hx, hok⟩ := hok
    rw [bindOk] at hok
    obtain ⟨xsc, hxs, hok⟩ := hok
    simp only [Except.ok.injEq, Prod.mk.injEq] at hok
    rw [← hok.1, invTreeListB]
    simp [abandon_inv reason er rec x xc.1 xc.2 (by rw [hx]) hinv.1,
      abandonList_inv reason er rec xs xsc.1 xsc.2 (by rw [hxs]) hinv.2]
end

/-- C9: every state-transition operation (`complete`, `succeed`, `timeout`, `fail`,
`reject`, `discard`, `abandon`) preserves, throughout the whole task tree, the
invariant that a task's result is non-undefined only when its state is in the
completed family and its error is non-undefined only when its state is in the
rejected, failed or timed-out families: every successfully returned tree
satisfies `invTreeB` again. -/
theorem c9_result_error_invariant_preserved (t : Task) (r er : Option String)
    (reason : String) (ov oc ou ra rec : Bool) (hinv : invTreeB t = true) :
    (∀ t', Task.complete r ov rec t = Except.ok t' → invTreeB t' = true)
    ∧ (∀ t', Task.succeed r ov rec t = Except.ok t' → invTreeB t' = true)
    ∧ (∀ t', Task.timeout er oc ou ra rec t = Except.ok t' → invTreeB t' = true)
    ∧ (∀ t', Task.fail er rec t = Except.ok t' → invTreeB t' = true)
    ∧ (∀ t' n, Task.reject reason er rec t = Except.ok (t', n) → invTreeB t' = true)
    ∧ (∀ t' n, Task.discard reason er rec t = Except.ok (t', n) → invTreeB t' = true)
    ∧ (∀ t' n, Task.abandon reason er rec t = Except.ok (t', n) → invTreeB t' = true) :=
  ⟨fun t' h => complete_inv r ov rec t t' h hinv,
   fun t' h => succeed_inv r ov rec t t' h hinv,
   fun t' h => timeout_inv er oc ou ra rec t t' h hinv,
   fun t' h => fail_inv er rec t t' h hinv,
   fun t' n h => reject_inv reason er rec t t' n h hinv,
   fun t' n h => discard_inv reason er rec t t' n h hinv,
   fun t' n h => abandon_inv reason er rec t t' n h hinv⟩

/-- Witness for C9: the freshly created task satisfies the result/error invariant,
and instantiating the preservation theorem on it covers each operation, e.g. any
successful recursive `complete` with result "res" returns an invariant-satisfying
tree. -/
theorem c9_result_error_invariant_preserved_witness :
    invTreeB c7Fresh = true
    ∧ (∀ t', Task.complete (some "res") false true c7Fresh = Except.ok t' →
        invTreeB t' = true)
    ∧ (∀ t' n, Task.reject "stop" (some "boom") true c7Fresh = Except.ok (t', n) →
        invTreeB t' = true) := by
  have h := c9_result_error_invariant_preserved c7Fresh (some "res") (some "boom")
    "stop" false false false false true (by rfl)
  exact ⟨by rfl, h.1, h.2.2.2.2.1⟩

/-- Recording a began-at time never changes the stored state. -/
theorem beganAtData_state (time : Int) (dat : TaskData) :
    (beganAtData time dat).state = dat.state := by
  rw [beganAtData]
  split_ifs <;> rfl

mutual
/-- A successful recursive `start` leaves no node of the returned tree unstarted. -/
theorem start_noUnstarted (time : Int) (t t' : Task)
    (hok : Task.start time true t = Except.ok t') : noUnstartedTreeB t' = true := by
  cases t with
  | mk d dat subs slaves =>
    rw [Task.start] at hok
    rcases hsb : Tasks.startList time true subs with e1 | subs1 <;>
      rcases hsl : Tasks.startList time true slaves with e2 | slaves1
    all_goals
      first
      | have hs1 : noUnstartedTreeListB subs1 = true :=
          startList_noUnstarted time subs subs1 hsb
      | have hs1 : True := trivial
    all_goals
      first
      | have hs2 : noUnstartedTreeListB slaves1 = true :=
          startList_noUnstarted time slaves slaves1 hsl
      | have hs2 : True := trivial
    all_goals simp [hsb, hsl, Bind.bind, Except.bind] at hok
    all_goals
      first
      | (split_ifs at hok <;>
          first
          | exact hok.elim
          | simp only [reduceCtorEq] at hok
          | ((try simp only [Except.ok.injEq] at hok)
             subst hok
             simp_all [noUnstartedTreeB, beganAtData_state, TaskState.unstartedB]))
      | exact hok.elim
      | simp only [reduceCtorEq] at hok
      | ((try simp only [Except.ok.injEq] at hok)
         subst hok
         simp_all [noUnstartedTreeB, beganAtData_state, TaskState.unstartedB])
/-- A successful recursive list start leaves no node of the returned lists
unstarted. -/
theorem startList_noUnstarted (time : Int) (ts ts' : Tasks)
    (hok : Tasks.startList time true ts = Except.ok ts') :
    noUnstartedTreeListB ts' = true := by
  cases ts with
  | nil =>
    rw [Tasks.startList] at hok
    cases hok
    rfl
  | cons x xs =>
    rw [Tasks.startList, bindOk] at hok
    obtain ⟨x', hx, hok⟩ := hok
    rw [bindOk] at hok
    obtain ⟨xs', hxs, hok⟩ := hok
    cases hok
    rw [noUnstartedTreeListB]
    simp [start_noUnstarted time x x' hx, startList_noUnstarted time xs xs' hxs]
end

mutual
/-- `start` is the identity on a tree with no unstarted node: the guard blocks the
own-data write at every node, so the very same tree is returned. -/
theorem start_id (time : Int) (rec : Bool) (t : Task)
    (h : noUnstartedTreeB t = true) : Task.start time rec t = Except.ok t := by
  cases t with
  | mk d dat subs slaves =>
    rw [noUnstartedTreeB] at h
    simp only [Bool.and_eq_true, Bool.not_eq_true'] at h
    obtain ⟨⟨hst, hsubs⟩, hslaves⟩ := h
    rw [Task.start]
    simp [hst, startList_id time rec subs hsubs, startList_id time rec slaves hslaves,
      Bind.bind, Except.bind]
/-- List version: starting a list with no unstarted node returns it unchanged. -/
theorem startList_id (time : Int) (rec : Bool) (ts : Tasks)
    (h : noUnstartedTreeListB ts = true) : Tasks.startList time rec ts = Except.ok ts := by
  cases ts with
  | nil => rfl
  | cons x xs =>
    rw [noUnstartedTreeListB, Bool.and_eq_true] at h
    rw [Tasks.startList]
    simp [start_id time rec x h.1, startList_id time rec xs h.2, Bind.bind, Except.bind]
end

mutual
/-- `start` always succeeds on an unfrozen tree (the only raise in its path is the
frozen check of the unstarted branch). -/
theorem start_ok (time : Int) (rec : Bool) (t : Task) (h : unfrozenTreeB t = true) :
    ∃ t', Task.start time rec t = Except.ok t' := by
  cases t with
  | mk d dat subs slaves =>
    rw [unfrozenTreeB] at h
    simp only [Bool.and_eq_true, Bool.not_eq_true'] at h
    obtain ⟨⟨hf, hsubs⟩, hslaves⟩ := h
    obtain ⟨subs1, hs1⟩ := startList_ok time rec subs hsubs
    obtain ⟨slaves1, hs2⟩ := startList_ok time rec slaves hslaves
    rw [Task.start]
    cases hst : dat.state.unstartedB <;>
      cases rec <;>
        simp [hst, hf, hs1, hs2, Bind.bind, Except.bind]
/-- List version: starting an unfrozen list of trees always succeeds. -/
theorem startList_ok (time : Int) (rec : Bool) (ts : Tasks)
    (h : unfrozenTreeListB ts = true) : ∃ ts', Tasks.startList time rec ts = Except.ok ts' := by
  cases ts with
  | nil => exact ⟨.nil, rfl⟩
  | cons x xs =>
    rw [unfrozenTreeListB, Bool.and_eq_true] at h
    obtain ⟨x', hx⟩ := start_ok time rec x h.1
    obtain ⟨xs', hxs⟩ := startList_ok time rec xs h.2
    rw [Tasks.startList]
    exact ⟨.cons x' xs', by simp [hx, hxs, Bind.bind, Except.bind]⟩
end

/-- C10: on a task whose own state is no longer unstarted, a further `start` call
leaves the task's own data (state, attempts, totalAttempts, began) unchanged
while still propagating to sub-tasks when recursive and always to slave tasks;
consequently a second recursive `start` after a successful one returns the tree
unchanged (two consecutive recursive starts equal one). -/
theorem c10_start_idempotent (t : Task) (time time2 : Int) (rec : Bool) :
    (TaskState.unstartedB (Task.state t) = false →
      ∀ t', Task.start time rec t = Except.ok t' →
        Task.data t' = Task.data t
        ∧ Tasks.startList time rec (Task.slaveTasks t) = Except.ok (Task.slaveTasks t')
        ∧ (rec = true →
            Tasks.startList time rec (Task.subTasks t) = Except.ok (Task.subTasks t'))
        ∧ (rec = false → Task.subTasks t' = Task.subTasks t))
    ∧ (∀ t₁, Task.start time true t = Except.ok t₁ →
        Task.start time2 true t₁ = Except.ok t₁) := by
  constructor
  · intro hst t' hok
    cases t with
    | mk d dat subs slaves =>
      rw [Task.start] at hok
      simp only [Task.state, Task.data] at hst
      cases rec with
      | false =>
        rcases hsl : Tasks.startList time false slaves with e2 | slaves1
        · simp [hst, hsl, Bind.bind, Except.bind] at hok
        · simp [hst, hsl, Bind.bind, Except.bind] at hok
          (try simp only [Except.ok.injEq] at hok)
          subst hok
          refine ⟨rfl, hsl, ?_, fun _ => rfl⟩
          intro hco
          exact absurd hco (by simp)
      | true =>
        rcases hsb : Tasks.startList time true subs with e1 | subs1 <;>
          rcases hsl : Tasks.startList time true slaves with e2 | slaves1 <;>
            simp [hst, hsb, hsl, Bind.bind, Except.bind] at hok
        (try simp only [Except.ok.injEq] at hok)
        subst hok
        refine ⟨rfl, hsl, fun _ => hsb, ?_⟩
        intro hco
        exact absurd hco (by simp)
  · intro t₁ hok
    exact start_id time2 true t₁ (start_noUnstarted time t t₁ hok)

/-- Witness for C10: the started leaf is no longer unstarted and a further
non-recursive `start` keeps its data; starting the fresh task recursively once
and then a second time returns the once-started tree unchanged. -/
theorem c10_start_idempotent_witness :
    TaskState.unstartedB (Task.state c1Started) = false
    ∧ (∃ t₁, Task.start 5 true c7Fresh = Except.ok t₁ ∧
        Task.start 7 true t₁ = Except.ok t₁) := by
  refine ⟨rfl, ?_⟩
  obtain ⟨t₁, h1⟩ := start_ok 5 true c7Fresh (by rfl)
  exact ⟨t₁, h1, (c10_start_idempotent c7Fresh 5 7 true).2 t₁ h1⟩

end TaskUtils
